import Mathlib

/-!
# dms3ns records: creation, validation, ordering and selection

A shallow embedding of `dms3ns.go` and `record.go`.

* Byte strings are lists of natural numbers (one number per byte).
* A `time.Time` is the instant it denotes, counted in nanoseconds from the Unix epoch;
  `After` is the strict order of instants.
* A Go result `(int, error)` is a pair `Int × Option Error`, an `error` result is an
  `Option Error` (`none` is `nil`), and `(value, error)` results where the value is unused on
  failure are `Except Error value`.
* Everything the package imports from other repositories (timestamp parsing and formatting,
  the protobuf decoder, keys and signatures, peer IDs, record keys, the key book) is a field
  of `Deps`, `PeerDeps`, `PubKey`, `PrivKey` or `KeyBook`, so every theorem holds for every
  implementation of the collaborators.
* `EmbedPublicKey`, which writes to the entry it is given, returns the error together with
  the state of the entry after the call.
-/

namespace Dms3ns

/-! ## Data model -/

/-- A byte string, one natural number per byte. -/
abbrev Bytes := List Nat

/-- The ASCII bytes of a string. -/
def ascii (s : String) : Bytes := s.toList.map Char.toNat

/-- An instant, in nanoseconds since the Unix epoch. -/
abbrev Time := Int

/-- The stand-in for `t.After(u)`: the instant `t` is strictly later than `u`. -/
def After (t u : Time) : Bool := decide (u < t)

/-- The error values of `errors.go`, the anonymous error of `selectRecord`, and the errors that
come from collaborators. -/
inductive Error where
  | ErrExpiredRecord
  | ErrUnrecognizedValidity
  | ErrInvalidPath
  | ErrSignature
  | ErrKeyFormat
  | ErrPublicKeyNotFound
  | ErrPublicKeyMismatch
  | ErrBadRecord
  /-- The value of `errors.New("no usable records in given set")`. -/
  | noUsableRecords
  /-- An error value produced outside this package (time parsing, protobuf, crypto). -/
  | foreign (msg : String)
  /-- The value of `fmt.Errorf(context + ": %s", cause)`. -/
  | errorf (context : String) (cause : Error)
  deriving DecidableEq, Repr

/-- Modelled from the spec: the enumeration `validityType` of the record type, which lives in
the generated package `pb` (not part of the sources at hand). The wire value is kept, so that
unknown values survive decoding; `EOL` is `0`. -/
abbrev Dms3NsEntry_ValidityType := Int

/-- Modelled from the spec: the only recognised validity type, `EOL = 0`. -/
def Dms3NsEntry_EOL : Dms3NsEntry_ValidityType := 0

/-- Modelled from the spec: the record type `pb.Dms3NsEntry` of the generated package `pb`
(not part of the sources at hand), with the fields of the data model: `value`, `validityType`,
`validity`, `sequence`, `signature` and the optional `publicKey`. A field holds what its
getter returns. -/
structure Dms3NsEntry where
  Value : Bytes
  ValidityType : Dms3NsEntry_ValidityType
  Validity : Bytes
  Sequence : Nat
  Signature : Bytes
  PubKey : Option Bytes
  deriving DecidableEq, Repr

/-- The entry `new(pb.Dms3NsEntry)`: every field at its zero value. -/
def Dms3NsEntry.new : Dms3NsEntry :=
  { Value := [], ValidityType := Dms3NsEntry_EOL, Validity := [], Sequence := 0,
    Signature := [], PubKey := none }

/-- The getter `GetValidityType`. -/
def Dms3NsEntry.GetValidityType (e : Dms3NsEntry) : Dms3NsEntry_ValidityType :=
  e.ValidityType

/-- The getter `GetValidity`. -/
def Dms3NsEntry.GetValidity (e : Dms3NsEntry) : Bytes := e.Validity

/-- The getter `GetSequence`. -/
def Dms3NsEntry.GetSequence (e : Dms3NsEntry) : Nat := e.Sequence

/-- The getter `GetSignature`. -/
def Dms3NsEntry.GetSignature (e : Dms3NsEntry) : Bytes := e.Signature

/-- The decimal digits of a natural number, most significant first, as ASCII bytes. -/
def decimal (n : Nat) : Bytes :=
  if n = 0 then [48] else ((Nat.digits 10 n).reverse.map (fun c => c + 48))

/-- Modelled from the spec: the textual name of a validity type, which is what
`fmt.Sprint(e.GetValidityType())` prints through the `String` method of the generated
package `pb` (not part of the sources at hand): `EOL` for the value `0`, and the decimal
numeral of the value for a value without a name. -/
def validityTypeName (t : Dms3NsEntry_ValidityType) : Bytes :=
  if t = Dms3NsEntry_EOL then [69, 79, 76]
  else if t < 0 then 45 :: decimal t.natAbs
  else decimal t.natAbs

/-! ## Collaborators -/

/-- A public key of `go-p2p-crypto`: the methods `Verify` and `Bytes` are used here. -/
structure PubKey where
  Verify : Bytes → Bytes → Bool × Option Error
  Bytes : Except Error Bytes

/-- A private key of `go-p2p-crypto`: only `Sign` is used here. -/
structure PrivKey where
  Sign : Bytes → Except Error Bytes

/-- The functions of other repositories that the package calls. -/
structure Deps where
  /-- The call `u.ParseRFC3339(string(b))`. -/
  ParseRFC3339 : Bytes → Except Error Time
  /-- The call `[]byte(u.FormatRFC3339(t))`. -/
  FormatRFC3339 : Time → Bytes
  /-- The call `proto.Unmarshal(b, e)` on a fresh entry `e`. -/
  Unmarshal : Bytes → Except Error Dms3NsEntry

/-- A peer ID of `go-p2p-peer`: a string. -/
abbrev ID := Bytes

/-- The functions of the identity layer (`go-p2p-peer`, `go-p2p-crypto`) and of
`go-p2p-record` that the package calls. A key that is `nil` in Go is `none`. -/
structure PeerDeps where
  /-- The call `record.SplitKey(key)`: the namespace and the rest of the key. -/
  SplitKey : Bytes → Except Error (Bytes × Bytes)
  /-- The call `peer.IDFromString(s)`. -/
  IDFromString : Bytes → Except Error ID
  /-- The call `peer.IDFromPublicKey(pk)`. -/
  IDFromPublicKey : PubKey → Except Error ID
  /-- The method call `id.ExtractPublicKey()`. -/
  IDExtractPublicKey : ID → Except Error (Option PubKey)
  /-- The call `ic.UnmarshalPublicKey(b)`. -/
  UnmarshalPublicKey : Bytes → Except Error PubKey

/-- The interface `pstore.KeyBook`: only `PubKey` is used here. -/
structure KeyBook where
  PubKey : ID → Option PubKey

/-- The call `bytes.Compare`: lexicographic comparison, `-1`, `0` or `1`. -/
def bytesCompare : Bytes → Bytes → Int
  | [], [] => 0
  | [], _ :: _ => -1
  | _ :: _, [] => 1
  | a :: as, b :: bs => if a < b then -1 else if b < a then 1 else bytesCompare as bs

/-! ## `dms3ns.go` -/

/-- The bytes that are signed: `value`, `validity` and the name of the validity type, joined
with the empty separator. -/
def dms3nsEntryDataForSig (e : Dms3NsEntry) : Bytes :=
  e.Value ++ e.Validity ++ validityTypeName e.GetValidityType

/-- Creates a new entry and signs it with the given private key. No public key is embedded. -/
def Create (d : Deps) (sk : PrivKey) (val : Bytes) (seq : Nat) (eol : Time) :
    Except Error Dms3NsEntry :=
  let entry := Dms3NsEntry.new
  let entry := { entry with Value := val }
  let typ := Dms3NsEntry_EOL
  let entry := { entry with ValidityType := typ }
  let entry := { entry with Sequence := seq }
  let entry := { entry with Validity := d.FormatRFC3339 eol }
  match sk.Sign (dms3nsEntryDataForSig entry) with
  | .error err => .error err
  | .ok sig => .ok { entry with Signature := sig }

/-- Returns the EOL of an entry: `ErrUnrecognizedValidity` unless the validity type is `EOL`,
otherwise whatever the timestamp parser returns. -/
def GetEOL (d : Deps) (entry : Dms3NsEntry) : Except Error Time :=
  if entry.GetValidityType ≠ Dms3NsEntry_EOL then .error Error.ErrUnrecognizedValidity
  else d.ParseRFC3339 entry.GetValidity

/-- Validates an entry against a public key; `now` is the value of `time.Now()`. -/
def Validate (d : Deps) (now : Time) (pk : PubKey) (entry : Dms3NsEntry) : Option Error :=
  match pk.Verify (dms3nsEntryDataForSig entry) entry.GetSignature with
  | (ok, err) =>
    if err ≠ none ∨ ok = false then some Error.ErrSignature
    else
      match GetEOL d entry with
      | .error err => some err
      | .ok eol => if After now eol then some Error.ErrExpiredRecord else none

/-- Compares two entries: `1` if `a` is newer, `-1` if `a` is older, `0` if they cannot be
ordered; the sequence numbers are compared first, the validity timestamps only on a tie. -/
def Compare (d : Deps) (a b : Dms3NsEntry) : Int × Option Error :=
  let as := a.GetSequence
  let bs := b.GetSequence
  if as > bs then (1, none)
  else if as < bs then (-1, none)
  else
    match d.ParseRFC3339 a.GetValidity with
    | .error err => (0, some err)
    | .ok ta =>
      match d.ParseRFC3339 b.GetValidity with
      | .error err => (0, some err)
      | .ok tb =>
        if After ta tb then (1, none)
        else if After tb ta then (-1, none)
        else (0, none)

/-! ## `record.go` -/

/-- The loop of `selectRecord`: `i` is the index of the best record so far and the list holds
the values that `j` still has to take. -/
def selectLoop (d : Deps) (recs : List Dms3NsEntry) (vals : List Bytes) :
    Nat → List Nat → Int × Option Error
  | i, [] => ((i : Int), none)
  | i, j :: js =>
    match Compare d (recs.getD i Dms3NsEntry.new) (recs.getD j Dms3NsEntry.new) with
    | (_, some err) => (-1, some err)
    | (cmp, none) =>
      let cmp := if cmp = 0 then bytesCompare (vals.getD i []) (vals.getD j []) else cmp
      selectLoop d recs vals (if cmp < 0 then j else i) js

/-- Selects the best record among `recs`, whose serialized forms are `vals`. -/
def selectRecord (d : Deps) (recs : List Dms3NsEntry) (vals : List Bytes) : Int × Option Error :=
  match recs.length with
  | 0 => (-1, some Error.noUsableRecords)
  | 1 => (0, none)
  | n + 2 => selectLoop d recs vals 0 (List.range' 1 (n + 1))

/-- The decoding loop of `Select`: `recs` holds the entries decoded so far. -/
def unmarshalAll (d : Deps) : List Dms3NsEntry → List Bytes → Except Error (List Dms3NsEntry)
  | recs, [] => .ok recs
  | recs, v :: vs =>
    match d.Unmarshal v with
    | .error err => .error err
    | .ok e => unmarshalAll d (recs ++ [e]) vs

/-- The method `Validator.Select`: decodes every candidate, then selects the best record. The
key `k` is not used. -/
def Select (d : Deps) (_k : String) (vals : List Bytes) : Int × Option Error :=
  match unmarshalAll d [] vals with
  | .error err => (-1, some err)
  | .ok recs => selectRecord d recs vals

/-- The record key of a peer ID: `/dms3ns/` followed by the ID. -/
def RecordKey (pid : ID) : Bytes := ascii "/dms3ns/" ++ pid

/-- The record validator; its `KeyBook` may be `nil`. -/
structure Validator where
  KeyBook : Option KeyBook

/-- Embeds the public key in the entry, unless the peer ID of the key already yields the key.
The result is the returned error and the state of the entry after the call. -/
def EmbedPublicKey (p : PeerDeps) (pk : PubKey) (entry : Dms3NsEntry) :
    Option Error × Dms3NsEntry :=
  match p.IDFromPublicKey pk with
  | .error err => (some err, entry)
  | .ok id =>
    match p.IDExtractPublicKey id with
    | .error err => (some err, entry)
    | .ok (some _) => (none, entry)
    | .ok none =>
      match pk.Bytes with
      | .error err => (some err, entry)
      | .ok pkBytes => (none, { entry with PubKey := some pkBytes })

/-- Extracts a public key matching `pid` from the entry, if possible: `.ok none` is the
result `(nil, nil)`. -/
def ExtractPublicKey (p : PeerDeps) (pid : ID) (entry : Dms3NsEntry) :
    Except Error (Option PubKey) :=
  match entry.PubKey with
  | some kb =>
    match p.UnmarshalPublicKey kb with
    | .error err => .error (Error.errorf "unmarshaling pubkey in record" err)
    | .ok pk =>
      match p.IDFromPublicKey pk with
      | .error err => .error (Error.errorf "could not regenerate peerID from pubkey" err)
      | .ok expPid =>
        if pid ≠ expPid then .error Error.ErrPublicKeyMismatch
        else .ok (some pk)
  | none => p.IDExtractPublicKey pid

/-- The method `Validator.getPublicKey`: the key of the entry or of the peer ID, else the key
of the key book. -/
def Validator.getPublicKey (p : PeerDeps) (v : Validator) (pid : ID) (entry : Dms3NsEntry) :
    Except Error PubKey :=
  match ExtractPublicKey p pid entry with
  | .error err => .error err
  | .ok (some pk) => .ok pk
  | .ok none =>
    match v.KeyBook with
    | none => .error Error.ErrPublicKeyNotFound
    | some kb =>
      match kb.PubKey pid with
      | none => .error Error.ErrPublicKeyNotFound
      | some pubk => .ok pubk

/-- The method `Validator.Validate`: validates the record `value` stored under `key`; `now`
is the value of `time.Now()`. -/
def Validator.Validate (d : Deps) (p : PeerDeps) (now : Time) (v : Validator) (key : Bytes)
    (value : Bytes) : Option Error :=
  match p.SplitKey key with
  | .error _ => some Error.ErrInvalidPath
  | .ok (ns, pidString) =>
    if ns ≠ ascii "dms3ns" then some Error.ErrInvalidPath
    else
      match d.Unmarshal value with
      | .error _ => some Error.ErrBadRecord
      | .ok entry =>
        match p.IDFromString pidString with
        | .error _ => some Error.ErrKeyFormat
        | .ok pid =>
          match v.getPublicKey p pid entry with
          | .error err => some err
          | .ok pubk => Dms3ns.Validate d now pubk entry

/-! ## Concrete collaborators

Executable stand-ins for the collaborators, used to evaluate the definitions on concrete
inputs: a reader and a writer for UTC timestamps of the RFC 3339 profile, a decoder for the
protobuf wire form of an entry, a toy signature scheme, and a toy identity layer. -/

/-- Reads exactly `k` decimal digits. -/
def readDigits : Nat → Bytes → Option (Nat × Bytes)
  | 0, bs => some (0, bs)
  | _ + 1, [] => none
  | k + 1, c :: bs =>
    if 48 ≤ c ∧ c ≤ 57 then
      match readDigits k bs with
      | some (n, rest) => some ((c - 48) * 10 ^ k + n, rest)
      | none => none
    else none

/-- Reads one given byte. -/
def readByte (b : Nat) : Bytes → Option Bytes
  | [] => none
  | c :: bs => if c = b then some bs else none

/-- The number of days of a month of the Gregorian calendar. -/
def daysIn (y m : Nat) : Nat :=
  if m = 2 then (if (y % 4 = 0 ∧ y % 100 ≠ 0) ∨ y % 400 = 0 then 29 else 28)
  else if m = 4 ∨ m = 6 ∨ m = 9 ∨ m = 11 then 30 else 31

/-- The number of days from 1970-01-01 to the given civil date. -/
def daysFromCivil (y m d : Nat) : Int :=
  let yy := if m ≤ 2 then y + 399 else y + 400
  let era := yy / 400
  let yoe := yy % 400
  let mp := if m ≤ 2 then m + 9 else m - 3
  let doy := (153 * mp + 2) / 5 + d - 1
  let doe := yoe * 365 + yoe / 4 - yoe / 100 + doy
  ((era * 146097 + doe : Nat) : Int) - 865565

/-- Reads the fraction of a second: nothing, or a dot and one to nine digits. -/
def readFraction : Bytes → Option (Nat × Bytes)
  | 46 :: bs =>
    let ds := bs.takeWhile (fun c => decide (48 ≤ c ∧ c ≤ 57))
    if ds.length = 0 ∨ 9 < ds.length then none
    else
      match readDigits ds.length bs with
      | some (n, rest) => some (n * 10 ^ (9 - ds.length), rest)
      | none => none
  | bs => some (0, bs)

/-- A reader for timestamps `YYYY-MM-DDTHH:MM:SS[.fraction]Z`. -/
def demoParse (b : Bytes) : Except Error Time :=
  let r : Option Time := do
    let (y, b) ← readDigits 4 b
    let b ← readByte 45 b
    let (m, b) ← readDigits 2 b
    let b ← readByte 45 b
    let (dd, b) ← readDigits 2 b
    let b ← readByte 84 b
    let (h, b) ← readDigits 2 b
    let b ← readByte 58 b
    let (mi, b) ← readDigits 2 b
    let b ← readByte 58 b
    let (sec, b) ← readDigits 2 b
    let (ns, b) ← readFraction b
    let b ← readByte 90 b
    if b = [] ∧ 1 ≤ m ∧ m ≤ 12 ∧ 1 ≤ dd ∧ dd ≤ daysIn y m ∧ h < 24 ∧ mi < 60 ∧ sec < 60 then
      some (((daysFromCivil y m dd * 86400 + (h * 3600 + mi * 60 + sec : Nat)) * 1000000000
        + (ns : Nat) : Int))
    else none
  match r with
  | some t => .ok t
  | none => .error (Error.foreign "parsing time")

/-- Writes `n` with exactly `k` decimal digits. -/
def writeDigits : Nat → Nat → Bytes
  | 0, _ => []
  | k + 1, n => (n / 10 ^ k % 10 + 48) :: writeDigits k n

/-- Drops the zeros at the end of a list of digits. -/
def trimZeros (ds : Bytes) : Bytes :=
  (ds.reverse.dropWhile (fun c => decide (c = 48))).reverse

/-- A writer for timestamps `YYYY-MM-DDTHH:MM:SS[.fraction]Z`, for instants of the years 0
to 9999. -/
def demoFormat (t : Time) : Bytes :=
  let ns := (t % 1000000000).toNat
  let secs := t / 1000000000
  let sod := (secs % 86400).toNat
  let z := (secs / 86400 + 865565).toNat
  let era := z / 146097
  let doe := z % 146097
  let yoe := (doe - doe / 1460 + doe / 36524 - doe / 146096) / 365
  let doy := doe - (365 * yoe + yoe / 4 - yoe / 100)
  let mp := (5 * doy + 2) / 153
  let dd := doy - (153 * mp + 2) / 5 + 1
  let m := if mp < 10 then mp + 3 else mp - 9
  let y := if m ≤ 2 then yoe + era * 400 - 399 else yoe + era * 400 - 400
  let frac := if ns = 0 then [] else 46 :: trimZeros (writeDigits 9 ns)
  writeDigits 4 y ++ [45] ++ writeDigits 2 m ++ [45] ++ writeDigits 2 dd ++ [84]
    ++ writeDigits 2 (sod / 3600) ++ [58] ++ writeDigits 2 (sod / 60 % 60) ++ [58]
    ++ writeDigits 2 (sod % 60) ++ frac ++ [90]

/-- Reads a base-128 varint of at most `k` bytes. -/
def readVarint : Nat → Bytes → Option (Nat × Bytes)
  | 0, _ => none
  | _ + 1, [] => none
  | k + 1, b :: bs =>
    if b < 128 then some (b, bs)
    else
      match readVarint k bs with
      | some (n, rest) => some (b - 128 + 128 * n, rest)
      | none => none

/-- The fields of the wire form: `value = 1`, `signature = 2`, `validityType = 3`,
`validity = 4`, `sequence = 5`, `pubKey = 7`; the flags tell whether the two required
fields were seen. -/
def decodeFields : Nat → Bytes → Dms3NsEntry → Bool → Bool → Option Dms3NsEntry
  | _, [], e, hasValue, hasSig => if hasValue ∧ hasSig then some e else none
  | 0, _ :: _, _, _, _ => none
  | fuel + 1, b :: bs, e, hasValue, hasSig =>
    match readVarint 10 (b :: bs) with
    | none => none
    | some (key, rest) =>
      if key % 8 = 2 then
        match readVarint 10 rest with
        | none => none
        | some (len, rest) =>
          if rest.length < len then none
          else
            let body := rest.take len
            let rest := rest.drop len
            if key / 8 = 1 then decodeFields fuel rest { e with Value := body } true hasSig
            else if key / 8 = 2 then
              decodeFields fuel rest { e with Signature := body } hasValue true
            else if key / 8 = 4 then
              decodeFields fuel rest { e with Validity := body } hasValue hasSig
            else if key / 8 = 7 then
              decodeFields fuel rest { e with PubKey := some body } hasValue hasSig
            else none
      else if key % 8 = 0 then
        match readVarint 10 rest with
        | none => none
        | some (v, rest) =>
          if key / 8 = 3 then
            let w := v % 4294967296
            let t : Int := if w < 2147483648 then (w : Int) else (w : Int) - 4294967296
            decodeFields fuel rest { e with ValidityType := t } hasValue hasSig
          else if key / 8 = 5 then
            decodeFields fuel rest { e with Sequence := v % 18446744073709551616 } hasValue hasSig
          else if key / 8 = 6 then decodeFields fuel rest e hasValue hasSig
          else none
      else none

/-- A decoder for the protobuf wire form of an entry. -/
def demoUnmarshal (b : Bytes) : Except Error Dms3NsEntry :=
  match decodeFields b.length b Dms3NsEntry.new false false with
  | some e => .ok e
  | none => .error (Error.foreign "proto: cannot decode")

/-- The concrete collaborators. -/
def demoDeps : Deps :=
  { ParseRFC3339 := demoParse, FormatRFC3339 := demoFormat, Unmarshal := demoUnmarshal }

/-- A toy signature scheme: the signature of a message under the key `k` is `k` followed by
the message. -/
def toyPrivKey (k : Bytes) : PrivKey := { Sign := fun m => .ok (k ++ m) }

/-- The public key of the toy scheme for the key `k`; its encoding is the protobuf framing of
a key of type `0` with the data `k`. -/
def toyPubKey (k : Bytes) : PubKey :=
  { Verify := fun m s => (decide (s = k ++ m), none),
    Bytes := .ok ([8, 0, 18, k.length] ++ k) }

/-- Flips bit `bit` of the byte at position `pos`. -/
def flipBit (b : Bytes) (pos bit : Nat) : Bytes := b.set pos (b.getD pos 0 ^^^ 2 ^ bit)

/-- The instant 2020-09-13T12:26:40Z. -/
def exampleEOL : Time := 1600000000000000000

/-- The entry that `Create` builds with the toy key `[1, 2, 3]` for the value `/dms3fs/x`,
the sequence number `1` and the expiry `exampleEOL`. -/
def exampleEntry : Dms3NsEntry :=
  { Value := ascii "/dms3fs/x", ValidityType := Dms3NsEntry_EOL,
    Validity := ascii "2020-09-13T12:26:40Z", Sequence := 1,
    Signature := [1, 2, 3] ++ ascii "/dms3fs/x2020-09-13T12:26:40ZEOL", PubKey := none }

/-- The wire form of the entry with value `/a`, signature `09`, the given validity (shorter
than 128 bytes) and the given sequence number (below 128). -/
def wire (validity : Bytes) (seq : Nat) : Bytes :=
  [10, 2, 47, 97, 18, 1, 9, 34, validity.length] ++ validity ++ [40, seq]

/-- A candidate of sequence `1` that expires at 2020-09-13T12:26:40Z. -/
def candOld : Bytes := wire (ascii "2020-09-13T12:26:40Z") 1

/-- A candidate of sequence `2` that expires at 2020-09-13T12:26:40Z. -/
def candNew : Bytes := wire (ascii "2020-09-13T12:26:40Z") 2

/-- A candidate of sequence `2` that expires one second later, at 2020-09-13T12:26:41Z. -/
def candNewer : Bytes := wire (ascii "2020-09-13T12:26:41Z") 2

/-- A candidate of sequence `1` whose validity `soon` is no timestamp. -/
def candBad : Bytes := wire (ascii "soon") 1

/-- A stand-in for `record.SplitKey`: the key must start with a slash; the namespace is what
stands before the next slash and must not be empty, the rest is what follows that slash. -/
def demoSplitKey (key : Bytes) : Except Error (Bytes × Bytes) :=
  match key with
  | [] => .error (Error.foreign "invalid record keytype")
  | c :: rest =>
    if c ≠ 47 then .error (Error.foreign "invalid record keytype")
    else
      let ns := rest.takeWhile (fun b => decide (b ≠ 47))
      if ns.length = 0 ∨ ns.length = rest.length then
        .error (Error.foreign "invalid record keytype")
      else .ok (ns, rest.drop (ns.length + 1))

/-- A stand-in for `peer.IDFromString`: the string must be a multihash, that is a code (`0`
for the identity, `18` for a digest), a length and a body of that length. -/
def demoIDFromString (s : Bytes) : Except Error ID :=
  match s with
  | c :: n :: body =>
    if (c = 0 ∨ c = 18) ∧ body.length = n then .ok s
    else .error (Error.foreign "multihash: invalid")
  | _ => .error (Error.foreign "multihash: too short")

/-- A stand-in for `peer.IDFromPublicKey`: the identity multihash of the encoding of the key
when the encoding has at most eight bytes, else a multihash of code `18` whose toy digest is
the encoding itself. -/
def demoIDFromPublicKey (pk : PubKey) : Except Error ID :=
  match pk.Bytes with
  | .error err => .error err
  | .ok b => if b.length ≤ 8 then .ok ([0, b.length] ++ b) else .ok ([18, b.length] ++ b)

/-- A stand-in for `ic.UnmarshalPublicKey`: reads the encoding that `toyPubKey` writes. -/
def demoUnmarshalPublicKey (b : Bytes) : Except Error PubKey :=
  match b with
  | 8 :: 0 :: 18 :: n :: k =>
    if k.length = n then .ok (toyPubKey k) else .error (Error.foreign "bad public key")
  | _ => .error (Error.foreign "bad public key")

/-- A stand-in for `id.ExtractPublicKey()`: the key inside an identity multihash, and no key
(`nil, nil`) for every other ID. -/
def demoIDExtractPublicKey (id : ID) : Except Error (Option PubKey) :=
  match id with
  | 0 :: n :: body =>
    if body.length = n then
      match demoUnmarshalPublicKey body with
      | .ok pk => .ok (some pk)
      | .error err => .error err
    else .error (Error.foreign "multihash: invalid")
  | _ => .ok none

/-- The concrete collaborators of the identity layer. -/
def demoPeerDeps : PeerDeps :=
  { SplitKey := demoSplitKey, IDFromString := demoIDFromString,
    IDFromPublicKey := demoIDFromPublicKey, IDExtractPublicKey := demoIDExtractPublicKey,
    UnmarshalPublicKey := demoUnmarshalPublicKey }

/-- A toy key whose peer ID yields the key. -/
def shortKey : Bytes := [1, 2, 3]

/-- A toy key whose peer ID does not yield the key. -/
def longKey : Bytes := [1, 2, 3, 4, 5, 6, 7, 8]

/-- Another toy key whose peer ID does not yield the key. -/
def otherKey : Bytes := [9, 9, 9, 9, 9, 9, 9, 9]

/-- The peer ID of `longKey`. -/
def longID : ID := [18, 12, 8, 0, 18, 8, 1, 2, 3, 4, 5, 6, 7, 8]

/-- The peer ID of `shortKey`. -/
def shortID : ID := [0, 7, 8, 0, 18, 3, 1, 2, 3]

/-- The wire form of the entry with value `/a`, signature `09`, validity
2020-09-13T12:26:40Z, sequence `1` and the embedded public key `pub` (shorter than 128
bytes). -/
def wireWithKey (pub : Bytes) : Bytes := candOld ++ [58, pub.length] ++ pub

/-- The entry that `candOld` decodes to. -/
def oldEntry : Dms3NsEntry :=
  { Value := ascii "/a", ValidityType := Dms3NsEntry_EOL,
    Validity := ascii "2020-09-13T12:26:40Z", Sequence := 1, Signature := [9],
    PubKey := none }

/-- A key book that holds the key `longKey` for the peer `longID` and nothing else. -/
def demoKeyBook : KeyBook :=
  { PubKey := fun pid => if pid = longID then some (toyPubKey longKey) else none }

/-- The entry `exampleEntry` with the validity type `1`, which has no name, signed with the
toy key `[1, 2, 3]`. -/
def futureEntry : Dms3NsEntry :=
  { exampleEntry with
    ValidityType := 1, Signature := [1, 2, 3] ++ ascii "/dms3fs/x2020-09-13T12:26:40Z1" }

/-- The entry `exampleEntry` with the validity `soon`, which is no timestamp, signed with the
toy key `[1, 2, 3]`. -/
def soonEntry : Dms3NsEntry :=
  { exampleEntry with
    Validity := ascii "soon", Signature := [1, 2, 3] ++ ascii "/dms3fs/xsoonEOL" }

/-! ## Vocabulary for the selection theorems -/

/-- The entry a candidate decodes to (the fresh entry when decoding fails). -/
def recOf (d : Deps) (v : Bytes) : Dms3NsEntry :=
  match d.Unmarshal v with
  | .ok e => e
  | .error _ => Dms3NsEntry.new

/-- The sequence number of the entry a candidate decodes to. -/
def seqOf (d : Deps) (v : Bytes) : Nat := (recOf d v).GetSequence

/-- Lexicographic order on triples of a sequence number, an instant and raw bytes. -/
def tripleLe (p q : Nat × Time × Bytes) : Prop :=
  p.1 < q.1 ∨ (p.1 = q.1 ∧ (p.2.1 < q.2.1 ∨ (p.2.1 = q.2.1 ∧ bytesCompare p.2.2 q.2.2 ≤ 0)))

/-- Both candidates have a validity that parses, and the pair of instant and raw bytes of `x`
is lexicographically at most the pair of `y`. -/
def tieLe (d : Deps) (x y : Bytes) : Prop :=
  ∃ tx ty, d.ParseRFC3339 (recOf d x).GetValidity = .ok tx ∧
    d.ParseRFC3339 (recOf d y).GetValidity = .ok ty ∧
    (tx < ty ∨ (tx = ty ∧ bytesCompare x y ≤ 0))

/-- The candidate `b` is the best of the candidates `seen`: it is one of them, none has a
greater sequence number, and either it is the only one with its sequence number or every
candidate with its sequence number parses and is at most `b` by instant and raw bytes. -/
def Best (d : Deps) (b : Bytes) (seen : List Bytes) : Prop :=
  b ∈ seen ∧ (∀ x ∈ seen, seqOf d x ≤ seqOf d b) ∧
    (seen.countP (fun x => decide (seqOf d x = seqOf d b)) = 1 ∨
      ∀ x ∈ seen, seqOf d x = seqOf d b → tieLe d x b)

end Dms3ns

namespace Dms3ns

/-! ## Facts about the byte-level helpers -/

theorem decimal_lt (n x : Nat) (hx : x ∈ decimal n) : x < 58 := by
  unfold decimal at hx
  split at hx
  · simp at hx; omega
  · simp only [List.mem_map, List.mem_reverse] at hx
    obtain ⟨c, hc, rfl⟩ := hx
    have := Nat.digits_lt_base (by norm_num : 1 < 10) hc
    omega

theorem validityTypeName_eq_EOL (t : Dms3NsEntry_ValidityType)
    (h : validityTypeName t = validityTypeName Dms3NsEntry_EOL) : t = Dms3NsEntry_EOL := by
  by_contra hne
  have h0 : validityTypeName Dms3NsEntry_EOL = [69, 79, 76] := by simp [validityTypeName]
  rw [h0] at h
  unfold validityTypeName at h
  rw [if_neg hne] at h
  split at h
  · simp at h
  · have := decimal_lt t.natAbs 69 (by rw [h]; simp)
    omega

theorem flipBit_ne (b : Bytes) (pos bit : Nat) (h : pos < b.length) : flipBit b pos bit ≠ b := by
  intro heq
  have h1 : (flipBit b pos bit).getD pos 0 = b.getD pos 0 := by rw [heq]
  unfold flipBit at h1
  rw [List.getD_eq_getElem _ _ (by simpa using h), List.getElem_set_self] at h1
  have h2 : b.getD pos 0 ^^^ 2 ^ bit = b.getD pos 0 ^^^ 0 := by simpa using h1
  have h3 := Nat.xor_right_injective h2
  have : 0 < 2 ^ bit := Nat.pow_pos (by norm_num)
  omega

theorem decimal_inj (n m : Nat) (hn : n ≠ 0) (hm : m ≠ 0) (h : decimal n = decimal m) :
    n = m := by
  unfold decimal at h
  rw [if_neg hn, if_neg hm] at h
  have h1 := List.map_injective_iff.mpr (fun a b (hab : a + 48 = b + 48) => by omega) h
  exact Nat.digits.injective 10 (List.reverse_injective h1)

theorem decimal_head_ne (n : Nat) (l : Bytes) : decimal n ≠ 45 :: l := by
  intro h
  have := decimal_lt n 45 (by rw [h]; simp)
  have h2 : ∀ x ∈ decimal n, 48 ≤ x := by
    intro x hx
    unfold decimal at hx
    split at hx
    · simp at hx; omega
    · simp only [List.mem_map, List.mem_reverse] at hx
      obtain ⟨c, -, rfl⟩ := hx
      omega
  have := h2 45 (by rw [h]; simp)
  omega

theorem validityTypeName_injective (t u : Int)
    (h : validityTypeName t = validityTypeName u) : t = u := by
  by_cases ht : t = Dms3NsEntry_EOL
  · subst ht
    exact (validityTypeName_eq_EOL u h.symm).symm
  · by_cases hu : u = Dms3NsEntry_EOL
    · subst hu
      exact validityTypeName_eq_EOL t h
    · unfold validityTypeName at h
      rw [if_neg ht, if_neg hu] at h
      have ht0 : t.natAbs ≠ 0 := by simpa [Dms3NsEntry_EOL] using ht
      have hu0 : u.natAbs ≠ 0 := by simpa [Dms3NsEntry_EOL] using hu
      by_cases h1 : t < 0 <;> by_cases h2 : u < 0
      · rw [if_pos h1, if_pos h2] at h
        have := decimal_inj _ _ ht0 hu0 (List.cons_injective h)
        omega
      · rw [if_pos h1, if_neg h2] at h
        exact absurd h.symm (decimal_head_ne _ _)
      · rw [if_neg h1, if_pos h2] at h
        exact absurd h (decimal_head_ne _ _)
      · rw [if_neg h1, if_neg h2] at h
        have := decimal_inj _ _ ht0 hu0 h
        omega

/-- What `Validate` returns once the signature check is spelled out. -/
theorem Validate_eq (d : Deps) (now : Time) (pk : PubKey) (entry : Dms3NsEntry) :
    Validate d now pk entry =
      if pk.Verify (dms3nsEntryDataForSig entry) entry.Signature = (true, none) then
        (match GetEOL d entry with
          | .error err => some err
          | .ok eol => if eol < now then some Error.ErrExpiredRecord else none)
      else some Error.ErrSignature := by
  unfold Validate Dms3NsEntry.GetSignature
  rcases hv : pk.Verify (dms3nsEntryDataForSig entry) entry.Signature with ⟨ok, err⟩
  cases ok <;> cases err <;> simp [After]

/-- What `Create` returns when signing succeeds. -/
theorem Create_eq (d : Deps) (sk : PrivKey) (v : Bytes) (n : Nat) (e : Time) (r : Dms3NsEntry)
    (h : Create d sk v n e = .ok r) :
    r.Value = v ∧ r.Sequence = n ∧ r.ValidityType = Dms3NsEntry_EOL ∧
      r.Validity = d.FormatRFC3339 e ∧ r.PubKey = none ∧
      sk.Sign (v ++ d.FormatRFC3339 e ++ validityTypeName Dms3NsEntry_EOL) = .ok r.Signature := by
  unfold Create at h
  simp only [dms3nsEntryDataForSig, Dms3NsEntry.GetValidityType, Dms3NsEntry.new] at h
  split at h
  · cases h
  · rename_i sig hs
    cases h
    exact ⟨rfl, rfl, rfl, rfl, rfl, hs⟩

/-! ## Comparison of two entries -/

/-- C4: `Compare` follows its reference definition. A greater sequence number gives `(1, nil)`
and a smaller one `(-1, nil)`, whatever the timestamp parser would say about the validity
fields; on equal sequence numbers with validity fields that parse to `ta` and `tb`, the result
is `1` when `ta` is after `tb`, `-1` when `tb` is after `ta`, and `0` exactly when the two
instants coincide. -/
theorem Compare_cases (d : Deps) (a b : Dms3NsEntry) :
    (b.GetSequence < a.GetSequence →
      ∀ p, Compare { d with ParseRFC3339 := p } a b = (1, none)) ∧
    (a.GetSequence < b.GetSequence →
      ∀ p, Compare { d with ParseRFC3339 := p } a b = (-1, none)) ∧
    (a.GetSequence = b.GetSequence → ∀ ta tb,
      d.ParseRFC3339 a.GetValidity = .ok ta → d.ParseRFC3339 b.GetValidity = .ok tb →
        (After ta tb = true → Compare d a b = (1, none)) ∧
        (After tb ta = true → Compare d a b = (-1, none)) ∧
        (Compare d a b = (0, none) ↔ ta = tb)) := by
  refine ⟨?_, ?_, ?_⟩
  · intro h p
    simp [Compare, h]
  · intro h p
    have h' : ¬ b.GetSequence < a.GetSequence := by omega
    simp [Compare, h, h']
  · intro h ta tb ha hb
    have h1 : ¬ b.GetSequence < a.GetSequence := by omega
    have h2 : ¬ a.GetSequence < b.GetSequence := by omega
    simp only [Compare, gt_iff_lt, h1, h2, if_false, ha, hb, After, decide_eq_true_eq]
    refine ⟨?_, ?_, ?_⟩
    · intro hlt
      simp [hlt]
    · intro hlt
      have : ¬ tb < ta := not_lt_of_gt hlt
      simp [hlt, this]
    · constructor
      · intro hc
        by_cases c1 : tb < ta
        · simp [c1] at hc
        · by_cases c2 : ta < tb
          · simp [c1, c2] at hc
          · exact le_antisymm (not_lt.mp c1) (not_lt.mp c2)
      · intro heq
        subst heq
        simp

/-- The three cases of `Compare_cases` on concrete entries: sequence `2` against `1` with a
validity that is no timestamp, the same pair swapped, and two entries of sequence `1` whose
validity fields are the same instant. -/
theorem Compare_cases_witness :
    ((1 < 2 ∧ ∀ p, Compare { demoDeps with ParseRFC3339 := p }
        { exampleEntry with Sequence := 2, Validity := ascii "soon" } exampleEntry = (1, none)) ∧
      (1 < 2 ∧ ∀ p, Compare { demoDeps with ParseRFC3339 := p } exampleEntry
        { exampleEntry with Sequence := 2, Validity := ascii "soon" } = (-1, none))) ∧
    (demoDeps.ParseRFC3339 exampleEntry.GetValidity = .ok exampleEOL ∧
      (Compare demoDeps exampleEntry exampleEntry = (0, none) ↔ exampleEOL = exampleEOL)) :=
  ⟨⟨⟨by decide, (Compare_cases demoDeps
        { exampleEntry with Sequence := 2, Validity := ascii "soon" } exampleEntry).1
        (by decide)⟩,
      ⟨by decide, (Compare_cases demoDeps exampleEntry
        { exampleEntry with Sequence := 2, Validity := ascii "soon" }).2.1 (by decide)⟩⟩,
    ⟨rfl, ((Compare_cases demoDeps exampleEntry exampleEntry).2.2 rfl exampleEOL exampleEOL
      rfl rfl).2.2⟩⟩

/-- C5: on the entry of sequence `2` whose validity `soon` is no timestamp, compared with a
well-formed entry of sequence `1`, `Compare` returns `(1, nil)` and `(-1, nil)`: no error is
reported although one of the two entries is malformed. -/
theorem Compare_malformed_no_error :
    (∃ err, demoDeps.ParseRFC3339 (ascii "soon") = .error err) ∧
    Compare demoDeps { exampleEntry with Sequence := 2, Validity := ascii "soon" } exampleEntry
      = (1, none) ∧
    Compare demoDeps exampleEntry { exampleEntry with Sequence := 2, Validity := ascii "soon" }
      = (-1, none) :=
  ⟨⟨_, rfl⟩, by decide, by decide⟩

/-! ## Creation and validation -/

/-- C6: for a key pair whose signatures verify, and a timestamp parser that undoes the
formatter at the expiry `e`, `Create` returns an entry with the given value and sequence
number, validity type `EOL` and no embedded public key, and `Validate` accepts that entry at
every time `now` strictly before `e`. -/
theorem Create_then_Validate (d : Deps) (sk : PrivKey) (pk : PubKey) (v : Bytes) (n : Nat)
    (e now : Time)
    (hkey : ∀ m, ∃ s, sk.Sign m = .ok s ∧ pk.Verify m s = (true, none))
    (hrt : d.ParseRFC3339 (d.FormatRFC3339 e) = .ok e)
    (hfut : now < e) :
    ∃ r, Create d sk v n e = .ok r ∧ r.Value = v ∧ r.GetSequence = n ∧
      r.GetValidityType = Dms3NsEntry_EOL ∧ r.PubKey = none ∧ Validate d now pk r = none := by
  obtain ⟨s, hs, hv⟩ := hkey (v ++ d.FormatRFC3339 e ++ validityTypeName Dms3NsEntry_EOL)
  have hc : Create d sk v n e = .ok
      { Value := v, ValidityType := Dms3NsEntry_EOL, Validity := d.FormatRFC3339 e,
        Sequence := n, Signature := s, PubKey := none } := by
    simp [Create, dms3nsEntryDataForSig, Dms3NsEntry.GetValidityType, Dms3NsEntry.new] at hs ⊢
    rw [hs]
  refine ⟨_, hc, rfl, rfl, rfl, rfl, ?_⟩
  rw [Validate_eq]
  have hlt : ¬ e < now := not_lt_of_gt hfut
  have hv' : pk.Verify (v ++ (d.FormatRFC3339 e ++ validityTypeName Dms3NsEntry_EOL)) s
      = (true, none) := by rw [← List.append_assoc]; exact hv
  simp [dms3nsEntryDataForSig, Dms3NsEntry.GetValidityType, hv', GetEOL,
    Dms3NsEntry.GetValidity, hrt, hlt]

/-- The toy key `[1, 2, 3]`, the expiry `exampleEOL` and a clock one hundred seconds before
it satisfy the hypotheses of `Create_then_Validate`. -/
theorem Create_then_Validate_witness :
    (∀ m, ∃ s, (toyPrivKey [1, 2, 3]).Sign m = .ok s ∧
      (toyPubKey [1, 2, 3]).Verify m s = (true, none)) ∧
    demoDeps.ParseRFC3339 (demoDeps.FormatRFC3339 exampleEOL) = .ok exampleEOL ∧
    exampleEOL - 100000000000 < exampleEOL ∧
    ∃ r, Create demoDeps (toyPrivKey [1, 2, 3]) (ascii "/dms3fs/x") 1 exampleEOL = .ok r ∧
      r.Value = ascii "/dms3fs/x" ∧ r.GetSequence = 1 ∧
      r.GetValidityType = Dms3NsEntry_EOL ∧ r.PubKey = none ∧
      Validate demoDeps (exampleEOL - 100000000000) (toyPubKey [1, 2, 3]) r = none :=
  ⟨fun m => ⟨_, rfl, by simp [toyPubKey]⟩, rfl, by decide,
    Create_then_Validate demoDeps (toyPrivKey [1, 2, 3]) (toyPubKey [1, 2, 3])
      (ascii "/dms3fs/x") 1 exampleEOL (exampleEOL - 100000000000)
      (fun m => ⟨_, rfl, by simp [toyPubKey]⟩) rfl (by decide)⟩

/-- The toy signature of a message verifies for that message only. -/
theorem toy_exact_message (k m s m' : Bytes) (hs : (toyPrivKey k).Sign m = .ok s)
    (hv : (toyPubKey k).Verify m' s = (true, none)) : m' = m := by
  simp only [toyPrivKey, Except.ok.injEq] at hs
  simp only [toyPubKey, Prod.mk.injEq, decide_eq_true_eq, and_true] at hv
  rw [← hs] at hv
  exact (List.append_cancel_left hv).symm

/-- A message verifies under the toy scheme with its signature only. -/
theorem toy_exact_signature (k m s s' : Bytes) (hs : (toyPrivKey k).Sign m = .ok s)
    (hv : (toyPubKey k).Verify m s' = (true, none)) : s' = s := by
  simp only [toyPrivKey, Except.ok.injEq] at hs
  simp only [toyPubKey, Prod.mk.injEq, decide_eq_true_eq, and_true] at hv
  rw [hv, hs]

/-- C7 (as stated, refuted): the entry `exampleEntry` carries a signature that verifies, has
validity type `EOL` and a validity that parses to `exampleEOL`; at a clock that reads
exactly `exampleEOL` the expiry is at the current time, and `Validate` returns `nil`, not
`ErrExpiredRecord`. -/
theorem Validate_accepts_eol_equal_now :
    (toyPubKey [1, 2, 3]).Verify (dms3nsEntryDataForSig exampleEntry) exampleEntry.GetSignature
      = (true, none) ∧
    exampleEntry.GetValidityType = Dms3NsEntry_EOL ∧
    demoDeps.ParseRFC3339 exampleEntry.GetValidity = .ok exampleEOL ∧
    exampleEOL ≤ exampleEOL ∧
    Validate demoDeps exampleEOL (toyPubKey [1, 2, 3]) exampleEntry = none ∧
    Validate demoDeps exampleEOL (toyPubKey [1, 2, 3]) exampleEntry
      ≠ some Error.ErrExpiredRecord :=
  ⟨by decide, rfl, rfl, le_refl _, by decide, by decide⟩

/-- C7 (amended): for an entry whose signature verifies under `pk`, whose validity type is
`EOL` and whose validity parses to the instant `eol`, `Validate` fails with
`ErrExpiredRecord` exactly when the current time is strictly after `eol`, and returns `nil`
exactly when `eol` is at or after the current time. -/
theorem Validate_expiry (d : Deps) (now : Time) (pk : PubKey) (entry : Dms3NsEntry) (eol : Time)
    (hsig : pk.Verify (dms3nsEntryDataForSig entry) entry.GetSignature = (true, none))
    (htyp : entry.GetValidityType = Dms3NsEntry_EOL)
    (hparse : d.ParseRFC3339 entry.GetValidity = .ok eol) :
    (Validate d now pk entry = some Error.ErrExpiredRecord ↔ eol < now) ∧
    (Validate d now pk entry = none ↔ now ≤ eol) := by
  rw [Validate_eq]
  simp only [Dms3NsEntry.GetSignature] at hsig
  simp only [hsig, if_true, GetEOL, htyp, ne_eq, not_true_eq_false, if_false, hparse]
  by_cases h : eol < now
  · simp [h]
  · simp [h, not_lt.mp h]

/-- The entry `exampleEntry` at a clock one nanosecond after its expiry satisfies the
hypotheses of `Validate_expiry`. -/
theorem Validate_expiry_witness :
    ((toyPubKey [1, 2, 3]).Verify (dms3nsEntryDataForSig exampleEntry)
        exampleEntry.GetSignature = (true, none) ∧
      exampleEntry.GetValidityType = Dms3NsEntry_EOL ∧
      demoDeps.ParseRFC3339 exampleEntry.GetValidity = .ok exampleEOL) ∧
    ((Validate demoDeps (exampleEOL + 1) (toyPubKey [1, 2, 3]) exampleEntry
        = some Error.ErrExpiredRecord ↔ exampleEOL < exampleEOL + 1) ∧
      (Validate demoDeps (exampleEOL + 1) (toyPubKey [1, 2, 3]) exampleEntry = none
        ↔ exampleEOL + 1 ≤ exampleEOL)) :=
  ⟨⟨by decide, rfl, rfl⟩,
    Validate_expiry demoDeps (exampleEOL + 1) (toyPubKey [1, 2, 3]) exampleEntry exampleEOL
      (by decide) rfl rfl⟩

/-- C8: tamper sensitivity. Let `r` be the entry returned by `Create`, under a signature
scheme where a signature verifies only for the message that was signed and a message only
with the signature that was produced. Flipping one bit of the value, of the validity or of
the signature, or changing the validity type, gives an entry for which `Validate` returns
`ErrSignature`, whatever the current time is: the signature is checked first. -/
theorem tamper_sensitivity (d : Deps) (now : Time) (sk : PrivKey) (pk : PubKey) (v : Bytes)
    (n : Nat) (e : Time) (r : Dms3NsEntry)
    (hcreate : Create d sk v n e = .ok r)
    (hmsg : ∀ m s m', sk.Sign m = .ok s → pk.Verify m' s = (true, none) → m' = m)
    (hsig : ∀ m s s', sk.Sign m = .ok s → pk.Verify m s' = (true, none) → s' = s) :
    (∀ pos bit, pos < r.Value.length →
      Validate d now pk { r with Value := flipBit r.Value pos bit } = some Error.ErrSignature) ∧
    (∀ pos bit, pos < r.Validity.length →
      Validate d now pk { r with Validity := flipBit r.Validity pos bit }
        = some Error.ErrSignature) ∧
    (∀ pos bit, pos < r.Signature.length →
      Validate d now pk { r with Signature := flipBit r.Signature pos bit }
        = some Error.ErrSignature) ∧
    (∀ t, t ≠ r.ValidityType →
      Validate d now pk { r with ValidityType := t } = some Error.ErrSignature) := by
  obtain ⟨hv, -, ht, hval, -, hs⟩ := Create_eq d sk v n e r hcreate
  rw [← hv, ← hval, ← ht] at hs
  refine ⟨?_, ?_, ?_, ?_⟩
  · intro pos bit hpos
    rw [Validate_eq, if_neg]
    intro hver
    have := hmsg _ _ _ hs hver
    simp only [dms3nsEntryDataForSig, Dms3NsEntry.GetValidityType, List.append_assoc] at this
    exact flipBit_ne _ _ _ hpos (List.append_cancel_right this)
  · intro pos bit hpos
    rw [Validate_eq, if_neg]
    intro hver
    have := hmsg _ _ _ hs hver
    simp only [dms3nsEntryDataForSig, Dms3NsEntry.GetValidityType] at this
    exact flipBit_ne _ _ _ hpos (List.append_cancel_left (List.append_cancel_right this))
  · intro pos bit hpos
    rw [Validate_eq, if_neg]
    intro hver
    exact flipBit_ne _ _ _ hpos (hsig _ _ _ hs hver)
  · intro t hne
    rw [Validate_eq, if_neg]
    intro hver
    have := hmsg _ _ _ hs hver
    simp only [dms3nsEntryDataForSig, Dms3NsEntry.GetValidityType] at this
    have h2 := List.append_cancel_left this
    rw [ht] at h2 hne
    exact hne (validityTypeName_eq_EOL t h2)

/-- The entry that `Create` builds with the toy key `[1, 2, 3]` satisfies the hypotheses of
`tamper_sensitivity`; the first bit of the value, of the validity and of the signature is
flipped, and the validity type is changed to `1`. -/
theorem tamper_sensitivity_witness :
    (Create demoDeps (toyPrivKey [1, 2, 3]) (ascii "/dms3fs/x") 1 exampleEOL = .ok exampleEntry ∧
      (∀ m s m', (toyPrivKey [1, 2, 3]).Sign m = .ok s →
        (toyPubKey [1, 2, 3]).Verify m' s = (true, none) → m' = m) ∧
      (∀ m s s', (toyPrivKey [1, 2, 3]).Sign m = .ok s →
        (toyPubKey [1, 2, 3]).Verify m s' = (true, none) → s' = s) ∧
      0 < exampleEntry.Value.length ∧ 0 < exampleEntry.Validity.length ∧
      0 < exampleEntry.Signature.length ∧ (1 : Int) ≠ exampleEntry.ValidityType) ∧
    Validate demoDeps 0 (toyPubKey [1, 2, 3])
      { exampleEntry with Value := flipBit exampleEntry.Value 0 0 } = some Error.ErrSignature ∧
    Validate demoDeps 0 (toyPubKey [1, 2, 3])
      { exampleEntry with Validity := flipBit exampleEntry.Validity 0 0 }
        = some Error.ErrSignature ∧
    Validate demoDeps 0 (toyPubKey [1, 2, 3])
      { exampleEntry with Signature := flipBit exampleEntry.Signature 0 0 }
        = some Error.ErrSignature ∧
    Validate demoDeps 0 (toyPubKey [1, 2, 3]) { exampleEntry with ValidityType := 1 }
      = some Error.ErrSignature :=
  have h := tamper_sensitivity demoDeps 0 (toyPrivKey [1, 2, 3]) (toyPubKey [1, 2, 3])
    (ascii "/dms3fs/x") 1 exampleEOL exampleEntry rfl (toy_exact_message [1, 2, 3])
    (toy_exact_signature [1, 2, 3])
  ⟨⟨rfl, toy_exact_message [1, 2, 3], toy_exact_signature [1, 2, 3], by decide, by decide,
      by decide, by decide⟩,
    h.1 0 0 (by decide), h.2.1 0 0 (by decide), h.2.2.1 0 0 (by decide),
    h.2.2.2 1 (by decide)⟩

/-- C9 (as stated, refuted): `exampleEntry` is produced by `Create` under the toy scheme, in
which a signature verifies only for the bytes that were signed, and `Validate` accepts it one
hundred seconds before its expiry; the entry that differs from it in the sequence number only
(`2` for `1`) is accepted as well, not rejected with `ErrSignature`. -/
theorem Validate_accepts_changed_sequence :
    Create demoDeps (toyPrivKey [1, 2, 3]) (ascii "/dms3fs/x") 1 exampleEOL = .ok exampleEntry ∧
    (∀ m s m', (toyPrivKey [1, 2, 3]).Sign m = .ok s →
      (toyPubKey [1, 2, 3]).Verify m' s = (true, none) → m' = m) ∧
    Validate demoDeps (exampleEOL - 100000000000) (toyPubKey [1, 2, 3]) exampleEntry = none ∧
    ({ exampleEntry with Sequence := 2 } : Dms3NsEntry) ≠ exampleEntry ∧
    Validate demoDeps (exampleEOL - 100000000000) (toyPubKey [1, 2, 3])
      { exampleEntry with Sequence := 2 } = none ∧
    Validate demoDeps (exampleEOL - 100000000000) (toyPubKey [1, 2, 3])
      { exampleEntry with Sequence := 2 } ≠ some Error.ErrSignature :=
  ⟨rfl, toy_exact_message [1, 2, 3], by decide, by decide, by decide, by decide⟩

/-- C9 (amended): let `r` be produced by `Create` and accepted by `Validate`, under a signature
scheme in which a signature verifies only for the bytes that were signed. Every entry that
differs from `r` in the value only, in the validity only or in the validity type only is
rejected with `ErrSignature`; an entry that differs from `r` in the sequence number only is
accepted like `r`, because the sequence number is not part of the signed bytes. -/
theorem field_change (d : Deps) (now : Time) (sk : PrivKey) (pk : PubKey) (v : Bytes)
    (n : Nat) (e : Time) (r : Dms3NsEntry)
    (hcreate : Create d sk v n e = .ok r)
    (hacc : Validate d now pk r = none)
    (hexact : ∀ m s m', sk.Sign m = .ok s → pk.Verify m' s = (true, none) → m' = m) :
    (∀ v', v' ≠ r.Value →
      Validate d now pk { r with Value := v' } = some Error.ErrSignature) ∧
    (∀ x, x ≠ r.Validity →
      Validate d now pk { r with Validity := x } = some Error.ErrSignature) ∧
    (∀ t, t ≠ r.ValidityType →
      Validate d now pk { r with ValidityType := t } = some Error.ErrSignature) ∧
    (∀ n', Validate d now pk { r with Sequence := n' } = none) := by
  obtain ⟨hv, -, ht, hval, -, hs⟩ := Create_eq d sk v n e r hcreate
  rw [← hv, ← hval, ← ht] at hs
  refine ⟨?_, ?_, ?_, ?_⟩
  · intro v' hne
    rw [Validate_eq, if_neg]
    intro hver
    have := hexact _ _ _ hs hver
    simp only [dms3nsEntryDataForSig, Dms3NsEntry.GetValidityType, List.append_assoc] at this
    exact hne (List.append_cancel_right this)
  · intro x hne
    rw [Validate_eq, if_neg]
    intro hver
    have := hexact _ _ _ hs hver
    simp only [dms3nsEntryDataForSig, Dms3NsEntry.GetValidityType] at this
    exact hne (List.append_cancel_left (List.append_cancel_right this))
  · intro t hne
    rw [Validate_eq, if_neg]
    intro hver
    have := hexact _ _ _ hs hver
    simp only [dms3nsEntryDataForSig, Dms3NsEntry.GetValidityType] at this
    have h2 := List.append_cancel_left this
    rw [ht] at h2 hne
    exact hne (validityTypeName_eq_EOL t h2)
  · intro n'
    rw [← hacc]
    rfl

/-- The entry `exampleEntry`, one hundred seconds before its expiry, satisfies the hypotheses
of `field_change`. -/
theorem field_change_witness :
    (Create demoDeps (toyPrivKey [1, 2, 3]) (ascii "/dms3fs/x") 1 exampleEOL = .ok exampleEntry ∧
      Validate demoDeps (exampleEOL - 100000000000) (toyPubKey [1, 2, 3]) exampleEntry = none ∧
      (∀ m s m', (toyPrivKey [1, 2, 3]).Sign m = .ok s →
        (toyPubKey [1, 2, 3]).Verify m' s = (true, none) → m' = m) ∧
      ascii "/dms3fs/y" ≠ exampleEntry.Value ∧
      ascii "2030-09-13T12:26:40Z" ≠ exampleEntry.Validity ∧
      (1 : Int) ≠ exampleEntry.ValidityType) ∧
    Validate demoDeps (exampleEOL - 100000000000) (toyPubKey [1, 2, 3])
      { exampleEntry with Value := ascii "/dms3fs/y" } = some Error.ErrSignature ∧
    Validate demoDeps (exampleEOL - 100000000000) (toyPubKey [1, 2, 3])
      { exampleEntry with Validity := ascii "2030-09-13T12:26:40Z" }
        = some Error.ErrSignature ∧
    Validate demoDeps (exampleEOL - 100000000000) (toyPubKey [1, 2, 3])
      { exampleEntry with ValidityType := 1 } = some Error.ErrSignature ∧
    Validate demoDeps (exampleEOL - 100000000000) (toyPubKey [1, 2, 3])
      { exampleEntry with Sequence := 7 } = none :=
  have h := field_change demoDeps (exampleEOL - 100000000000) (toyPrivKey [1, 2, 3])
    (toyPubKey [1, 2, 3]) (ascii "/dms3fs/x") 1 exampleEOL exampleEntry rfl (by decide)
    (toy_exact_message [1, 2, 3])
  ⟨⟨rfl, by decide, toy_exact_message [1, 2, 3], by decide, by decide, by decide⟩,
    h.1 _ (by decide), h.2.1 _ (by decide), h.2.2.1 1 (by decide), h.2.2.2 7⟩

/-! ## The signed bytes -/

/-- C10 (as stated, refuted): the entries with value `ab`, validity `c` and with value `a`,
validity `bc` (both of validity type `EOL`) have the same signed bytes `abcEOL`, yet their
values and their validity fields differ. -/
theorem dataForSig_ambiguous :
    dms3nsEntryDataForSig { Dms3NsEntry.new with Value := ascii "ab", Validity := ascii "c" }
      = dms3nsEntryDataForSig
          { Dms3NsEntry.new with Value := ascii "a", Validity := ascii "bc" } ∧
    ascii "ab" ≠ ascii "a" ∧ ascii "c" ≠ ascii "bc" :=
  ⟨by decide, by decide, by decide⟩

/-- C10 (amended): the signed bytes are the value, the validity and the name of the validity
type, one after the other; two entries with the same signed bytes whose values have the same
length and whose validity fields have the same length have the same value, the same validity
and the same validity type. -/
theorem dataForSig_injective_of_lengths (e1 e2 : Dms3NsEntry)
    (h : dms3nsEntryDataForSig e1 = dms3nsEntryDataForSig e2)
    (hv : e1.Value.length = e2.Value.length)
    (hx : e1.Validity.length = e2.Validity.length) :
    dms3nsEntryDataForSig e1 = e1.Value ++ e1.Validity ++ validityTypeName e1.GetValidityType ∧
    e1.Value = e2.Value ∧ e1.Validity = e2.Validity ∧
    e1.GetValidityType = e2.GetValidityType := by
  refine ⟨rfl, ?_⟩
  simp only [dms3nsEntryDataForSig, List.append_assoc] at h
  obtain ⟨h1, h2⟩ := List.append_inj h hv
  obtain ⟨h3, h4⟩ := List.append_inj h2 hx
  exact ⟨h1, h3, validityTypeName_injective _ _ h4⟩

/-- The entry `exampleEntry` and its copy with another sequence number have the same signed
bytes and fields of the same lengths: the hypotheses of `dataForSig_injective_of_lengths`. -/
theorem dataForSig_injective_of_lengths_witness :
    (dms3nsEntryDataForSig exampleEntry
        = dms3nsEntryDataForSig { exampleEntry with Sequence := 2 } ∧
      exampleEntry.Value.length = exampleEntry.Value.length ∧
      exampleEntry.Validity.length = exampleEntry.Validity.length) ∧
    dms3nsEntryDataForSig exampleEntry
      = exampleEntry.Value ++ exampleEntry.Validity
        ++ validityTypeName exampleEntry.GetValidityType ∧
    exampleEntry.Value = exampleEntry.Value ∧ exampleEntry.Validity = exampleEntry.Validity ∧
    exampleEntry.GetValidityType = exampleEntry.GetValidityType :=
  ⟨⟨rfl, rfl, rfl⟩,
    dataForSig_injective_of_lengths exampleEntry { exampleEntry with Sequence := 2 } rfl rfl rfl⟩

/-! ## Facts about `bytesCompare` -/

theorem bytesCompare_self (a : Bytes) : bytesCompare a a = 0 := by
  induction a with
  | nil => rfl
  | cons x xs ih => simp [bytesCompare, ih]

theorem bytesCompare_eq_zero : ∀ (a b : Bytes), bytesCompare a b = 0 → a = b
  | [], [], _ => rfl
  | [], _ :: _, h => by simp [bytesCompare] at h
  | _ :: _, [], h => by simp [bytesCompare] at h
  | x :: xs, y :: ys, h => by
    unfold bytesCompare at h
    split at h
    · simp at h
    · split at h
      · simp at h
      · have hxy : x = y := by omega
        rw [hxy, bytesCompare_eq_zero xs ys h]

theorem bytesCompare_swap : ∀ (a b : Bytes), bytesCompare b a = - bytesCompare a b
  | [], [] => rfl
  | [], _ :: _ => rfl
  | _ :: _, [] => rfl
  | x :: xs, y :: ys => by
    unfold bytesCompare
    by_cases h1 : x < y
    · have h2 : ¬ y < x := by omega
      simp [h1, h2]
    · by_cases h2 : y < x
      · simp [h1, h2]
      · simp [h1, h2, bytesCompare_swap xs ys]

theorem bytesCompare_trans : ∀ (a b c : Bytes),
    bytesCompare a b ≤ 0 → bytesCompare b c ≤ 0 → bytesCompare a c ≤ 0
  | [], [], _, _, h => h
  | [], _ :: _, [], _, h => by simp [bytesCompare] at h
  | [], _ :: _, _ :: _, _, _ => by simp [bytesCompare]
  | _ :: _, [], _, h, _ => by simp [bytesCompare] at h
  | _ :: _, _ :: _, [], _, h => by simp [bytesCompare] at h
  | x :: xs, y :: ys, z :: zs, h1, h2 => by
    unfold bytesCompare at h1 h2 ⊢
    by_cases hxy : x < y
    · have hxz : x < z := by
        by_cases hyz : y < z
        · omega
        · by_cases hzy : z < y
          · simp [hyz, hzy] at h2
          · omega
      simp [hxz]
    · by_cases hyx : y < x
      · simp [hxy, hyx] at h1
      · have e1 : x = y := by omega
        subst e1
        simp only [hxy, if_false] at h1
        by_cases hyz : x < z
        · simp [hyz]
        · by_cases hzy : z < x
          · simp [hyz, hzy] at h2
          · simp only [hyz, hzy, if_false] at h2 ⊢
            exact bytesCompare_trans xs ys zs h1 h2

/-! ## Facts about the order of candidates -/

theorem tieLe_refl (d : Deps) (x : Bytes) (t : Time)
    (h : d.ParseRFC3339 (recOf d x).GetValidity = .ok t) : tieLe d x x :=
  ⟨t, t, h, h, Or.inr ⟨rfl, le_of_eq (bytesCompare_self x)⟩⟩

theorem tieLe_left (d : Deps) (x y : Bytes) (h : tieLe d x y) : tieLe d x x := by
  obtain ⟨tx, _, hx, _, _⟩ := h
  exact tieLe_refl d x tx hx

theorem tieLe_right (d : Deps) (x y : Bytes) (h : tieLe d x y) : tieLe d y y := by
  obtain ⟨_, ty, _, hy, _⟩ := h
  exact tieLe_refl d y ty hy

theorem tieLe_trans (d : Deps) (x y z : Bytes) (h1 : tieLe d x y) (h2 : tieLe d y z) :
    tieLe d x z := by
  obtain ⟨tx, ty, hx, hy, h⟩ := h1
  obtain ⟨ty', tz, hy', hz, h'⟩ := h2
  rw [hy] at hy'
  cases hy'
  refine ⟨tx, tz, hx, hz, ?_⟩
  rcases h with h | ⟨h, hb⟩
  · rcases h' with h' | ⟨h', _⟩
    · exact Or.inl (lt_trans h h')
    · exact Or.inl (h' ▸ h)
  · rcases h' with h' | ⟨h', hb'⟩
    · exact Or.inl (h ▸ h')
    · exact Or.inr ⟨h.trans h', bytesCompare_trans x y z hb hb'⟩

theorem tieLe_antisymm (d : Deps) (x y : Bytes) (h1 : tieLe d x y) (h2 : tieLe d y x) :
    x = y := by
  obtain ⟨tx, ty, hx, hy, h⟩ := h1
  obtain ⟨ty', tx', hy', hx', h'⟩ := h2
  rw [hy] at hy'
  rw [hx] at hx'
  cases hy'
  cases hx'
  rcases h with h | ⟨h, hb⟩
  · rcases h' with h' | ⟨h', _⟩
    · exact absurd h (not_lt_of_gt h')
    · exact absurd h (h' ▸ lt_irrefl _)
  · rcases h' with h' | ⟨_, hb'⟩
    · exact absurd h' (h ▸ lt_irrefl _)
    · have hs := bytesCompare_swap x y
      exact bytesCompare_eq_zero x y (by omega)

/-- What a successful comparison of the best candidate `b` with the challenger `y` tells,
after the tie-break on raw bytes: the challenger replaces `b` only if it is strictly greater,
and `b` stays only if the challenger is at most `b`. -/
theorem compare_step (d : Deps) (b y : Bytes) (cmp : Int)
    (hc : Compare d (recOf d b) (recOf d y) = (cmp, none)) :
    ((if cmp = 0 then bytesCompare b y else cmp) < 0 →
      seqOf d b < seqOf d y ∨ (seqOf d b = seqOf d y ∧ tieLe d b y ∧ ¬ tieLe d y b)) ∧
    (¬ (if cmp = 0 then bytesCompare b y else cmp) < 0 →
      seqOf d y < seqOf d b ∨ (seqOf d b = seqOf d y ∧ tieLe d y b)) := by
  unfold Compare at hc
  simp only [gt_iff_lt] at hc
  by_cases h1 : (recOf d y).GetSequence < (recOf d b).GetSequence
  · rw [if_pos h1] at hc
    cases hc
    exact ⟨by simp, fun _ => Or.inl h1⟩
  · rw [if_neg h1] at hc
    by_cases h2 : (recOf d b).GetSequence < (recOf d y).GetSequence
    · rw [if_pos h2] at hc
      cases hc
      exact ⟨fun _ => Or.inl h2, by simp⟩
    · rw [if_neg h2] at hc
      have heq : seqOf d b = seqOf d y := by unfold seqOf; omega
      rcases hb : d.ParseRFC3339 (recOf d b).GetValidity with eb | tb
      · simp [hb] at hc
      · rcases hy : d.ParseRFC3339 (recOf d y).GetValidity with ey | ty
        · simp [hb, hy] at hc
        · simp only [hb, hy, After, decide_eq_true_eq] at hc
          by_cases c1 : ty < tb
          · rw [if_pos c1] at hc
            cases hc
            refine ⟨by simp, fun _ => Or.inr ⟨heq, ty, tb, hy, hb, Or.inl c1⟩⟩
          · rw [if_neg c1] at hc
            by_cases c2 : tb < ty
            · rw [if_pos c2] at hc
              cases hc
              refine ⟨fun _ => Or.inr ⟨heq, ⟨tb, ty, hb, hy, Or.inl c2⟩, ?_⟩, by simp⟩
              rintro ⟨ty', tb', hy', hb', h⟩
              rw [hy] at hy'
              rw [hb] at hb'
              cases hy'
              cases hb'
              rcases h with h | ⟨h, _⟩
              · exact c1 h
              · exact absurd c2 (h ▸ lt_irrefl _)
            · rw [if_neg c2] at hc
              cases hc
              have ht : tb = ty := le_antisymm (not_lt.mp c1) (not_lt.mp c2)
              simp only [if_true]
              have hs := bytesCompare_swap b y
              refine ⟨fun hlt => Or.inr ⟨heq, ⟨tb, ty, hb, hy, Or.inr ⟨ht, by omega⟩⟩, ?_⟩,
                fun hge => Or.inr ⟨heq, ty, tb, hy, hb, Or.inr ⟨ht.symm, by omega⟩⟩⟩
              rintro ⟨ty', tb', hy', hb', h⟩
              rw [hy] at hy'
              rw [hb] at hb'
              cases hy'
              cases hb'
              rcases h with h | ⟨_, h⟩
              · exact c1 h
              · omega

/-! ## The invariant of the selection loop -/

theorem countP_one_unique {α : Type} (p : α → Bool) : ∀ (l : List α) (x y : α),
    l.countP p = 1 → x ∈ l → y ∈ l → p x = true → p y = true → x = y
  | [], _, _, _, hx, _, _, _ => by simp at hx
  | a :: t, x, y, hc, hx, hy, px, py => by
    rw [List.countP_cons] at hc
    by_cases pa : p a = true
    · have h0 : t.countP p = 0 := by
        rw [if_pos pa] at hc
        omega
      have hnone := List.countP_eq_zero.mp h0
      have hxa : x = a := by
        rcases List.mem_cons.mp hx with h | h
        · exact h
        · exact absurd px (hnone x h)
      have hya : y = a := by
        rcases List.mem_cons.mp hy with h | h
        · exact h
        · exact absurd py (hnone y h)
      rw [hxa, hya]
    · have h1 : t.countP p = 1 := by
        rw [if_neg pa] at hc
        omega
      have hx' : x ∈ t := by
        rcases List.mem_cons.mp hx with h | h
        · rw [h] at px; exact absurd px pa
        · exact h
      have hy' : y ∈ t := by
        rcases List.mem_cons.mp hy with h | h
        · rw [h] at py; exact absurd py pa
        · exact h
      exact countP_one_unique p t x y h1 hx' hy' px py

theorem Best_singleton (d : Deps) (b : Bytes) : Best d b [b] := by
  refine ⟨by simp, ?_, Or.inl (by simp [List.countP_cons])⟩
  intro x hx
  simp at hx
  rw [hx]

/-- Every candidate of `seen` with the sequence number of the best one is at most the best one,
as soon as the best one has a validity that parses. -/
theorem Best_tieLe (d : Deps) (b : Bytes) (seen : List Bytes) (h : Best d b seen)
    (hb : tieLe d b b) : ∀ x ∈ seen, seqOf d x = seqOf d b → tieLe d x b := by
  intro x hx hs
  rcases h.2.2 with hc | ht
  · have := countP_one_unique _ seen x b hc hx h.1 (by simpa using hs) (by simp)
    rw [this]
    exact hb
  · exact ht x hx hs

/-- One round of the loop keeps the invariant: after a successful comparison of the best
candidate `b` with the challenger `y`, the new best candidate is the best of `seen ++ [y]`, and
a challenger that replaces `b` has not been seen before. -/
theorem Best_step (d : Deps) (b y : Bytes) (seen : List Bytes) (cmp : Int)
    (h : Best d b seen) (hc : Compare d (recOf d b) (recOf d y) = (cmp, none)) :
    ((if cmp = 0 then bytesCompare b y else cmp) < 0 → Best d y (seen ++ [y]) ∧ y ∉ seen) ∧
    (¬ (if cmp = 0 then bytesCompare b y else cmp) < 0 → Best d b (seen ++ [y])) := by
  obtain ⟨hlt, hge⟩ := compare_step d b y cmp hc
  obtain ⟨hmem, hmax, hrest⟩ := h
  constructor
  · intro hneg
    rcases hlt hneg with hs | ⟨hs, hby, hnyb⟩
    · refine ⟨⟨by simp, ?_, Or.inl ?_⟩, ?_⟩
      · intro x hx
        rcases List.mem_append.mp hx with hx | hx
        · exact le_of_lt (lt_of_le_of_lt (hmax x hx) hs)
        · simp at hx; rw [hx]
      · rw [List.countP_append]
        have h0 : seen.countP (fun x => decide (seqOf d x = seqOf d y)) = 0 := by
          rw [List.countP_eq_zero]
          intro x hx
          have := hmax x hx
          simp only [decide_eq_true_eq]
          omega
        simp [h0, List.countP_cons]
      · intro hy
        have := hmax y hy
        omega
    · have hbb : tieLe d b b := tieLe_left d b y hby
      have hall := Best_tieLe d b seen ⟨hmem, hmax, hrest⟩ hbb
      refine ⟨⟨by simp, ?_, Or.inr ?_⟩, ?_⟩
      · intro x hx
        rcases List.mem_append.mp hx with hx | hx
        · rw [← hs]; exact hmax x hx
        · simp at hx; rw [hx]
      · intro x hx hsx
        rcases List.mem_append.mp hx with hx | hx
        · exact tieLe_trans d x b y (hall x hx (hsx.trans hs.symm)) hby
        · simp at hx; rw [hx]; exact tieLe_right d b y hby
      · intro hy
        exact hnyb (hall y hy hs.symm)
  · intro hnneg
    rcases hge hnneg with hs | ⟨hs, hyb⟩
    · refine ⟨by simp [hmem], ?_, ?_⟩
      · intro x hx
        rcases List.mem_append.mp hx with hx | hx
        · exact hmax x hx
        · simp at hx; rw [hx]; exact le_of_lt hs
      · rcases hrest with hcnt | hall
        · left
          rw [List.countP_append, hcnt]
          have : ¬ seqOf d y = seqOf d b := by omega
          simp [List.countP_cons, this]
        · right
          intro x hx hsx
          rcases List.mem_append.mp hx with hx | hx
          · exact hall x hx hsx
          · simp at hx; rw [hx] at hsx; omega
    · have hbb : tieLe d b b := tieLe_right d y b hyb
      have hall := Best_tieLe d b seen ⟨hmem, hmax, hrest⟩ hbb
      refine ⟨by simp [hmem], ?_, Or.inr ?_⟩
      · intro x hx
        rcases List.mem_append.mp hx with hx | hx
        · exact hmax x hx
        · simp at hx; rw [hx]; exact le_of_eq hs.symm
      · intro x hx hsx
        rcases List.mem_append.mp hx with hx | hx
        · exact hall x hx hsx
        · simp at hx; rw [hx]; exact hyb

/-- Two candidates that are each the best of one of two lists with the same members, counted
with multiplicity, are the same candidate. -/
theorem Best_unique (d : Deps) (l1 l2 : List Bytes) (b1 b2 : Bytes) (hp : l1.Perm l2)
    (h1 : Best d b1 l1) (h2 : Best d b2 l2) : b1 = b2 := by
  have hb1 : b1 ∈ l2 := hp.mem_iff.mp h1.1
  have hb2 : b2 ∈ l1 := hp.mem_iff.mpr h2.1
  have hs : seqOf d b1 = seqOf d b2 := le_antisymm (h2.2.1 b1 hb1) (h1.2.1 b2 hb2)
  by_cases hc : l1.countP (fun x => decide (seqOf d x = seqOf d b1)) = 1
  · exact countP_one_unique _ l1 b1 b2 hc h1.1 hb2 (by simp) (by simpa using hs.symm)
  · have hall1 : ∀ x ∈ l1, seqOf d x = seqOf d b1 → tieLe d x b1 := by
      rcases h1.2.2 with h | h
      · exact absurd h hc
      · exact h
    have hc2 : ¬ l2.countP (fun x => decide (seqOf d x = seqOf d b2)) = 1 := by
      rw [← hs, ← hp.countP_eq]
      exact hc
    have hall2 : ∀ x ∈ l2, seqOf d x = seqOf d b2 → tieLe d x b2 := by
      rcases h2.2.2 with h | h
      · exact absurd h hc2
      · exact h
    exact tieLe_antisymm d b1 b2 (hall2 b1 hb1 hs) (hall1 b2 hb2 hs.symm)

/-! ## The loops of `Select` -/

theorem unmarshalAll_ok (d : Deps) : ∀ (vals : List Bytes) (acc recs : List Dms3NsEntry),
    unmarshalAll d acc vals = .ok recs → recs = acc ++ vals.map (recOf d)
  | [], acc, recs, h => by
    simp only [unmarshalAll, Except.ok.injEq] at h
    simp [h]
  | v :: vs, acc, recs, h => by
    unfold unmarshalAll at h
    rcases hv : d.Unmarshal v with err | e
    · simp [hv] at h
    · simp only [hv] at h
      have := unmarshalAll_ok d vs _ _ h
      simp [this, recOf, hv]

theorem unmarshalAll_of_decodes (d : Deps) : ∀ (vals : List Bytes) (acc : List Dms3NsEntry),
    (∀ v ∈ vals, ∃ e, d.Unmarshal v = .ok e) →
      unmarshalAll d acc vals = .ok (acc ++ vals.map (recOf d))
  | [], acc, _ => by simp [unmarshalAll]
  | v :: vs, acc, h => by
    obtain ⟨e, he⟩ := h v (by simp)
    unfold unmarshalAll
    simp only [he]
    rw [unmarshalAll_of_decodes d vs _ (fun w hw => h w (by simp [hw]))]
    simp [recOf, he]

theorem getD_map_recOf (d : Deps) (vals : List Bytes) (i : Nat) (hi : i < vals.length) :
    (vals.map (recOf d)).getD i Dms3NsEntry.new = recOf d (vals.getD i []) := by
  rw [List.getD_eq_getElem _ _ (by simpa using hi), List.getD_eq_getElem _ _ hi]
  simp

theorem take_succ_getD (vals : List Bytes) (j : Nat) (hj : j < vals.length) :
    vals.take (j + 1) = vals.take j ++ [vals.getD j []] := by
  rw [List.take_succ, List.getD_eq_getElem _ _ hj, List.getElem?_eq_getElem hj]
  rfl

theorem getD_mem_take (vals : List Bytes) (k j : Nat) (hk : k < j) (hj : j ≤ vals.length) :
    vals.getD k [] ∈ vals.take j := by
  rw [List.getD_eq_getElem _ _ (by omega), List.mem_take_iff_getElem]
  exact ⟨k, by omega, rfl⟩

/-- The result of a run of the loop that ends without error: an index of the list, whose
candidate is the best of all candidates and occurs at no smaller index. -/
theorem selectLoop_inv (d : Deps) (vals : List Bytes) : ∀ (m i j : Nat) (r : Int),
    j + m = vals.length → i < j → Best d (vals.getD i []) (vals.take j) →
    (∀ k, k < i → vals.getD k [] ≠ vals.getD i []) →
    selectLoop d (vals.map (recOf d)) vals i (List.range' j m) = (r, none) →
    ∃ k : Nat, r = (k : Int) ∧ k < vals.length ∧ Best d (vals.getD k []) vals ∧
      ∀ k', k' < k → vals.getD k' [] ≠ vals.getD k []
  | 0, i, j, r, hlen, hij, hbest, hfirst, hrun => by
    simp only [List.range'_zero, selectLoop, Prod.mk.injEq, and_true] at hrun
    have hj : j = vals.length := by omega
    rw [hj, List.take_length] at hbest
    exact ⟨i, hrun.symm, by omega, hbest, hfirst⟩
  | m + 1, i, j, r, hlen, hij, hbest, hfirst, hrun => by
    rw [List.range'_succ] at hrun
    unfold selectLoop at hrun
    rw [getD_map_recOf d vals i (by omega), getD_map_recOf d vals j (by omega)] at hrun
    rcases hcmp : Compare d (recOf d (vals.getD i [])) (recOf d (vals.getD j []))
      with ⟨cmp, err⟩
    rw [hcmp] at hrun
    cases err with
    | some e => exact absurd hrun (by simp)
    | none =>
      dsimp only at hrun
      obtain ⟨hrep, hkeep⟩ := Best_step d _ _ _ cmp hbest hcmp
      by_cases hneg :
          (if cmp = 0 then bytesCompare (vals.getD i []) (vals.getD j []) else cmp) < 0
      · rw [if_pos hneg] at hrun
        obtain ⟨hb, hnew⟩ := hrep hneg
        rw [← take_succ_getD vals j (by omega)] at hb
        refine selectLoop_inv d vals m j (j + 1) r (by omega) (by omega) hb ?_ hrun
        intro k hk heq
        exact hnew (heq ▸ getD_mem_take vals k j hk (by omega))
      · rw [if_neg hneg] at hrun
        have hb := hkeep hneg
        rw [← take_succ_getD vals j (by omega)] at hb
        exact selectLoop_inv d vals m i (j + 1) r (by omega) (by omega) hb hfirst hrun

theorem Compare_no_error (d : Deps) (a b : Dms3NsEntry) (ta tb : Time)
    (ha : d.ParseRFC3339 a.GetValidity = .ok ta) (hb : d.ParseRFC3339 b.GetValidity = .ok tb) :
    ∃ cmp, Compare d a b = (cmp, none) := by
  unfold Compare
  simp only [ha, hb]
  split
  · exact ⟨_, rfl⟩
  · split
    · exact ⟨_, rfl⟩
    · split
      · exact ⟨_, rfl⟩
      · split <;> exact ⟨_, rfl⟩

/-- The loop ends without error when every candidate has a validity that parses. -/
theorem selectLoop_total (d : Deps) (vals : List Bytes)
    (hvalid : ∀ v ∈ vals, ∃ t, d.ParseRFC3339 (recOf d v).GetValidity = .ok t) :
    ∀ (js : List Nat) (i : Nat), i < vals.length → (∀ j ∈ js, j < vals.length) →
      ∃ r, selectLoop d (vals.map (recOf d)) vals i js = (r, none)
  | [], i, _, _ => ⟨_, rfl⟩
  | j :: js, i, hi, hjs => by
    have hj : j < vals.length := hjs j (by simp)
    unfold selectLoop
    rw [getD_map_recOf d vals i hi, getD_map_recOf d vals j hj]
    obtain ⟨ti, hti⟩ := hvalid (vals.getD i []) (by
      rw [List.getD_eq_getElem _ _ hi]; exact List.getElem_mem _)
    obtain ⟨tj, htj⟩ := hvalid (vals.getD j []) (by
      rw [List.getD_eq_getElem _ _ hj]; exact List.getElem_mem _)
    obtain ⟨cmp, hcmp⟩ := Compare_no_error d _ _ ti tj hti htj
    rw [hcmp]
    dsimp only
    refine selectLoop_total d vals hvalid js _ ?_ (fun k hk => hjs k (by simp [hk]))
    by_cases hneg :
        (if cmp = 0 then bytesCompare (vals.getD i []) (vals.getD j []) else cmp) < 0
    · rw [if_pos hneg]; exact hj
    · rw [if_neg hneg]; exact hi

/-! ## Selection -/

/-- A successful `Select` returns an index of the list; the candidate there is the best of all
candidates and occurs at no smaller index. -/
theorem Select_ok (d : Deps) (key : String) (vals : List Bytes) (r : Int)
    (h : Select d key vals = (r, none)) :
    ∃ k : Nat, r = (k : Int) ∧ k < vals.length ∧ Best d (vals.getD k []) vals ∧
      ∀ k', k' < k → vals.getD k' [] ≠ vals.getD k [] := by
  unfold Select at h
  rcases hu : unmarshalAll d [] vals with err | recs
  · simp [hu] at h
  · have hrecs := unmarshalAll_ok d vals [] recs hu
    simp only [List.nil_append] at hrecs
    simp only [hu] at h
    subst hrecs
    match vals, h with
    | [], h => simp [selectRecord] at h
    | [v], h =>
      simp only [selectRecord, List.map_cons, List.map_nil, List.length_singleton,
        Prod.mk.injEq, and_true] at h
      refine ⟨0, by simpa using h.symm, by simp, ?_, by simp⟩
      simpa using Best_singleton d v
    | v :: w :: rest, h =>
      simp only [selectRecord, List.map_cons, List.length_cons, List.length_map] at h
      refine selectLoop_inv d (v :: w :: rest) (rest.length + 1) 0 1 r (by simp; omega)
        (by omega) ?_ (by simp) (by simpa using h)
      simpa using Best_singleton d v

/-- The method `Select` succeeds on a non-empty list of candidates that decode and whose
validity parses. -/
theorem Select_total (d : Deps) (key : String) (vals : List Bytes) (hne : vals ≠ [])
    (hvalid : ∀ v ∈ vals, ∃ e t, d.Unmarshal v = .ok e ∧ d.ParseRFC3339 e.GetValidity = .ok t) :
    ∃ r, Select d key vals = (r, none) := by
  have hdec := unmarshalAll_of_decodes d vals [] (fun v hv => by
    obtain ⟨e, _, he, _⟩ := hvalid v hv
    exact ⟨e, he⟩)
  have hparse : ∀ v ∈ vals, ∃ t, d.ParseRFC3339 (recOf d v).GetValidity = .ok t := by
    intro v hv
    obtain ⟨e, t, he, ht⟩ := hvalid v hv
    exact ⟨t, by simpa [recOf, he] using ht⟩
  unfold Select
  simp only [hdec, List.nil_append]
  match vals, hne, hparse with
  | [], hne, _ => exact absurd rfl hne
  | [v], _, _ => exact ⟨0, by simp [selectRecord]⟩
  | v :: w :: rest, _, hparse =>
    simp only [selectRecord, List.map_cons, List.length_cons, List.length_map]
    have := selectLoop_total d (v :: w :: rest) hparse (List.range' 1 (rest.length + 1)) 0
      (by simp) (by
        intro j hj
        rw [List.mem_range'_1] at hj
        simp only [List.length_cons]
        omega)
    simpa using this

theorem getD_of_lt (vals : List Bytes) (i : Nat) (hi : i < vals.length) :
    vals[i]? = some (vals.getD i []) := by
  rw [List.getD_eq_getElem _ _ hi, List.getElem?_eq_getElem hi]

/-- The concrete candidates decode and have a validity that parses. -/
theorem examples_valid : ∀ v ∈ [candOld, candNew, candNewer],
    ∃ e t, demoDeps.Unmarshal v = .ok e ∧ demoDeps.ParseRFC3339 e.GetValidity = .ok t := by
  intro v hv
  simp only [List.mem_cons, List.mem_singleton, List.not_mem_nil, or_false] at hv
  rcases hv with rfl | rfl | rfl
  · exact ⟨_, _, rfl, rfl⟩
  · exact ⟨_, _, rfl, rfl⟩
  · exact ⟨_, _, rfl, rfl⟩

/-- C1: order-independence of `Select` on valid input. For a non-empty list of candidates
that all decode and whose validity fields all parse, and for every permutation of it, `Select`
succeeds on both lists, and the candidates at the two returned indices are the same bytes. -/
theorem Select_order_independent (d : Deps) (key : String) (vals vals' : List Bytes)
    (hne : vals ≠ []) (hperm : vals.Perm vals')
    (hvalid : ∀ v ∈ vals, ∃ e t, d.Unmarshal v = .ok e ∧ d.ParseRFC3339 e.GetValidity = .ok t) :
    ∃ (i i' : Nat) (w : Bytes), Select d key vals = ((i : Int), none) ∧
      Select d key vals' = ((i' : Int), none) ∧ vals[i]? = some w ∧ vals'[i']? = some w := by
  have hne' : vals' ≠ [] := fun h => hne (List.Perm.eq_nil (h ▸ hperm))
  have hvalid' : ∀ v ∈ vals',
      ∃ e t, d.Unmarshal v = .ok e ∧ d.ParseRFC3339 e.GetValidity = .ok t :=
    fun v hv => hvalid v (hperm.mem_iff.mpr hv)
  obtain ⟨r, hr⟩ := Select_total d key vals hne hvalid
  obtain ⟨r', hr'⟩ := Select_total d key vals' hne' hvalid'
  obtain ⟨i, rfl, hi, hbest, -⟩ := Select_ok d key vals r hr
  obtain ⟨i', rfl, hi', hbest', -⟩ := Select_ok d key vals' r' hr'
  refine ⟨i, i', vals.getD i [], hr, hr', getD_of_lt vals i hi, ?_⟩
  rw [Best_unique d vals vals' _ _ hperm hbest hbest']
  exact getD_of_lt vals' i' hi'

/-- The candidates `candOld`, `candNew`, `candNewer` and a rearrangement of them satisfy the
hypotheses of `Select_order_independent`. -/
theorem Select_order_independent_witness :
    ([candOld, candNew, candNewer] ≠ [] ∧
      [candOld, candNew, candNewer].Perm [candNewer, candOld, candNew] ∧
      ∀ v ∈ [candOld, candNew, candNewer], ∃ e t, demoDeps.Unmarshal v = .ok e ∧
        demoDeps.ParseRFC3339 e.GetValidity = .ok t) ∧
    ∃ (i i' : Nat) (w : Bytes),
      Select demoDeps "" [candOld, candNew, candNewer] = ((i : Int), none) ∧
      Select demoDeps "" [candNewer, candOld, candNew] = ((i' : Int), none) ∧
      [candOld, candNew, candNewer][i]? = some w ∧
      [candNewer, candOld, candNew][i']? = some w :=
  ⟨⟨by decide, by decide, examples_valid⟩,
    Select_order_independent demoDeps "" [candOld, candNew, candNewer]
      [candNewer, candOld, candNew] (by decide) (by decide) examples_valid⟩

/-- C2: the candidates `candBad`, `candBad`, `candNew` all decode; in this order `Select` fails
with the error of the timestamp parser, and in the order `candBad`, `candNew`, `candBad` it
succeeds with index `1`, although two of the records carry a validity that does not parse:
`Compare` returns on the differing sequence numbers before it parses either validity. The
code makes the error of `Select` depend on the order of the candidates. -/
theorem Select_error_depends_on_order :
    [candBad, candBad, candNew].Perm [candBad, candNew, candBad] ∧
    demoDeps.Unmarshal candBad = .ok
      { Value := ascii "/a", ValidityType := Dms3NsEntry_EOL, Validity := ascii "soon",
        Sequence := 1, Signature := [9], PubKey := none } ∧
    demoDeps.Unmarshal candNew = .ok
      { Value := ascii "/a", ValidityType := Dms3NsEntry_EOL,
        Validity := ascii "2020-09-13T12:26:40Z", Sequence := 2, Signature := [9],
        PubKey := none } ∧
    Select demoDeps "" [candBad, candBad, candNew]
      = (-1, some (Error.foreign "parsing time")) ∧
    Select demoDeps "" [candBad, candNew, candBad] = (1, none) :=
  ⟨by decide, rfl, rfl, by decide, by decide⟩

/-- Whenever `Select` succeeds on a list of candidates and on a permutation of it, the
candidates at the two returned indices are the same bytes. -/
theorem Select_agree (d : Deps) (key : String) (vals vals' : List Bytes) (r r' : Int)
    (hperm : vals.Perm vals')
    (h : Select d key vals = (r, none)) (h' : Select d key vals' = (r', none)) :
    ∃ (i i' : Nat) (w : Bytes), r = (i : Int) ∧ r' = (i' : Int) ∧
      vals[i]? = some w ∧ vals'[i']? = some w := by
  obtain ⟨i, hr, hi, hbest, -⟩ := Select_ok d key vals r h
  obtain ⟨i', hr', hi', hbest', -⟩ := Select_ok d key vals' r' h'
  refine ⟨i, i', vals.getD i [], hr, hr', getD_of_lt vals i hi, ?_⟩
  rw [Best_unique d vals vals' _ _ hperm hbest hbest']
  exact getD_of_lt vals' i' hi'

/-- The lists `candBad`, `candNew`, `candOld` and `candOld`, `candBad`, `candNew`, on which
`Select` succeeds although one validity does not parse, satisfy the hypotheses of
`Select_agree`. -/
theorem Select_agree_witness :
    ([candBad, candNew, candOld].Perm [candNew, candOld, candBad] ∧
      Select demoDeps "" [candBad, candNew, candOld] = (1, none) ∧
      Select demoDeps "" [candNew, candOld, candBad] = (0, none)) ∧
    ∃ (i i' : Nat) (w : Bytes), (1 : Int) = (i : Int) ∧ (0 : Int) = (i' : Int) ∧
      [candBad, candNew, candOld][i]? = some w ∧ [candNew, candOld, candBad][i']? = some w :=
  ⟨⟨by decide, by decide, by decide⟩,
    Select_agree demoDeps "" [candBad, candNew, candOld] [candNew, candOld, candBad] 1 0
      (by decide) (by decide) (by decide)⟩

/-- C3: `Select` returns the maximum. For a non-empty list of candidates that all decode and
whose validity fields all parse, `Select` succeeds with an index `i` of the list such that
the triple of sequence number, expiry instant and raw bytes of every candidate is
lexicographically at most the triple of the candidate at `i`, and `i` is the first index that
holds those bytes. -/
theorem Select_max (d : Deps) (key : String) (vals : List Bytes) (hne : vals ≠ [])
    (hvalid : ∀ v ∈ vals, ∃ e t, d.Unmarshal v = .ok e ∧ d.ParseRFC3339 e.GetValidity = .ok t) :
    ∃ (i : Nat) (w : Bytes) (ei : Dms3NsEntry) (ti : Time),
      Select d key vals = ((i : Int), none) ∧ i < vals.length ∧ vals[i]? = some w ∧
      d.Unmarshal w = .ok ei ∧ d.ParseRFC3339 ei.GetValidity = .ok ti ∧
      (∀ (j : Nat) v ej tj, vals[j]? = some v → d.Unmarshal v = .ok ej →
        d.ParseRFC3339 ej.GetValidity = .ok tj →
        tripleLe (ej.GetSequence, tj, v) (ei.GetSequence, ti, w)) ∧
      (∀ j : Nat, j < i → vals[j]? ≠ some w) := by
  obtain ⟨r, hr⟩ := Select_total d key vals hne hvalid
  obtain ⟨i, rfl, hi, hbest, hfirst⟩ := Select_ok d key vals r hr
  have hw := getD_of_lt vals i hi
  obtain ⟨ei, ti, hei, hti⟩ := hvalid _ hbest.1
  have hrec : recOf d (vals.getD i []) = ei := by unfold recOf; rw [hei]
  have hbb : tieLe d (vals.getD i []) (vals.getD i []) :=
    tieLe_refl d _ ti (by rw [hrec]; exact hti)
  refine ⟨i, vals.getD i [], ei, ti, hr, hi, hw, hei, hti, ?_, ?_⟩
  · intro j v ej tj hv hej htj
    have hmem : v ∈ vals := List.getElem?_mem hv
    have hrecv : recOf d v = ej := by unfold recOf; rw [hej]
    have hle := hbest.2.1 v hmem
    simp only [seqOf, hrec, hrecv] at hle
    rcases Nat.lt_or_eq_of_le hle with hlt | heq
    · exact Or.inl hlt
    · obtain ⟨tx, tb, hx, hb, hord⟩ :=
        Best_tieLe d _ vals hbest hbb v hmem (by simp only [seqOf, hrec, hrecv]; exact heq)
      rw [hrecv, htj] at hx
      rw [hrec, hti] at hb
      cases hx
      cases hb
      exact Or.inr ⟨heq, hord⟩
  · intro j hj hjw
    have hjlen : j < vals.length := by omega
    rw [getD_of_lt vals j hjlen] at hjw
    exact hfirst j hj (Option.some.inj hjw)

/-- The list `candOld`, `candNew`, `candNewer` satisfies the hypotheses of `Select_max`. -/
theorem Select_max_witness :
    ([candOld, candNew, candNewer] ≠ [] ∧
      ∀ v ∈ [candOld, candNew, candNewer], ∃ e t, demoDeps.Unmarshal v = .ok e ∧
        demoDeps.ParseRFC3339 e.GetValidity = .ok t) ∧
    ∃ (i : Nat) (w : Bytes) (ei : Dms3NsEntry) (ti : Time),
      Select demoDeps "" [candOld, candNew, candNewer] = ((i : Int), none) ∧
      i < [candOld, candNew, candNewer].length ∧ [candOld, candNew, candNewer][i]? = some w ∧
      demoDeps.Unmarshal w = .ok ei ∧ demoDeps.ParseRFC3339 ei.GetValidity = .ok ti ∧
      (∀ (j : Nat) v ej tj, [candOld, candNew, candNewer][j]? = some v →
        demoDeps.Unmarshal v = .ok ej → demoDeps.ParseRFC3339 ej.GetValidity = .ok tj →
        tripleLe (ej.GetSequence, tj, v) (ei.GetSequence, ti, w)) ∧
      (∀ j : Nat, j < i → [candOld, candNew, candNewer][j]? ≠ some w) :=
  ⟨⟨by decide, examples_valid⟩,
    Select_max demoDeps "" [candOld, candNew, candNewer] (by decide) examples_valid⟩

/-! ## The validator: keys and paths -/

/-- C11: an embedded key that does not match is a hard failure. When the `PubKey` field of the
entry is set and unmarshals to a public key whose peer ID differs from `pid`,
`ExtractPublicKey` returns `ErrPublicKeyMismatch`, and `Validator.Validate` on the record key
of `pid` and a value that decodes to the entry returns `ErrPublicKeyMismatch`, for every
validator (with or without key book) and whatever `pid` itself yields. -/
theorem mismatch_is_hard_failure (d : Deps) (p : PeerDeps) (now : Time) (v : Validator)
    (pid expPid : ID) (entry : Dms3NsEntry) (kb value : Bytes) (pk : PubKey)
    (hset : entry.PubKey = some kb)
    (hun : p.UnmarshalPublicKey kb = .ok pk)
    (hid : p.IDFromPublicKey pk = .ok expPid)
    (hne : expPid ≠ pid)
    (hsplit : p.SplitKey (RecordKey pid) = .ok (ascii "dms3ns", pid))
    (hpid : p.IDFromString pid = .ok pid)
    (hval : d.Unmarshal value = .ok entry) :
    ExtractPublicKey p pid entry = .error Error.ErrPublicKeyMismatch ∧
    Validator.Validate d p now v (RecordKey pid) value = some Error.ErrPublicKeyMismatch := by
  have hx : ExtractPublicKey p pid entry = .error Error.ErrPublicKeyMismatch := by
    unfold ExtractPublicKey
    rw [hset]
    simp only [hun, hid]
    rw [if_pos (Ne.symm hne)]
  refine ⟨hx, ?_⟩
  unfold Validator.Validate
  simp only [hsplit, hval, hpid, Validator.getPublicKey, hx, ne_eq, not_true_eq_false, if_false]

/-- The entry that embeds the key `otherKey`, looked up under the peer ID of `longKey` with a
key book that holds `longKey` for that ID, satisfies the hypotheses of
`mismatch_is_hard_failure`. -/
theorem mismatch_is_hard_failure_witness :
    (({ oldEntry with PubKey := some [8, 0, 18, 8, 9, 9, 9, 9, 9, 9, 9, 9] } :
        Dms3NsEntry).PubKey = some [8, 0, 18, 8, 9, 9, 9, 9, 9, 9, 9, 9] ∧
      demoPeerDeps.UnmarshalPublicKey [8, 0, 18, 8, 9, 9, 9, 9, 9, 9, 9, 9]
        = .ok (toyPubKey otherKey) ∧
      demoPeerDeps.IDFromPublicKey (toyPubKey otherKey)
        = .ok [18, 12, 8, 0, 18, 8, 9, 9, 9, 9, 9, 9, 9, 9] ∧
      [18, 12, 8, 0, 18, 8, 9, 9, 9, 9, 9, 9, 9, 9] ≠ longID ∧
      demoPeerDeps.SplitKey (RecordKey longID) = .ok (ascii "dms3ns", longID) ∧
      demoPeerDeps.IDFromString longID = .ok longID ∧
      demoDeps.Unmarshal (wireWithKey [8, 0, 18, 8, 9, 9, 9, 9, 9, 9, 9, 9])
        = .ok { oldEntry with PubKey := some [8, 0, 18, 8, 9, 9, 9, 9, 9, 9, 9, 9] } ∧
      demoKeyBook.PubKey longID = some (toyPubKey longKey)) ∧
    ExtractPublicKey demoPeerDeps longID
        { oldEntry with PubKey := some [8, 0, 18, 8, 9, 9, 9, 9, 9, 9, 9, 9] }
      = .error Error.ErrPublicKeyMismatch ∧
    Validator.Validate demoDeps demoPeerDeps 0 { KeyBook := some demoKeyBook }
        (RecordKey longID) (wireWithKey [8, 0, 18, 8, 9, 9, 9, 9, 9, 9, 9, 9])
      = some Error.ErrPublicKeyMismatch :=
  ⟨⟨rfl, rfl, rfl, by decide, rfl, rfl, rfl, rfl⟩,
    mismatch_is_hard_failure demoDeps demoPeerDeps 0 { KeyBook := some demoKeyBook } longID
      [18, 12, 8, 0, 18, 8, 9, 9, 9, 9, 9, 9, 9, 9]
      { oldEntry with PubKey := some [8, 0, 18, 8, 9, 9, 9, 9, 9, 9, 9, 9] }
      [8, 0, 18, 8, 9, 9, 9, 9, 9, 9, 9, 9]
      (wireWithKey [8, 0, 18, 8, 9, 9, 9, 9, 9, 9, 9, 9]) (toyPubKey otherKey)
      rfl rfl rfl (by decide) rfl rfl rfl⟩

/-- What `Validator.Validate` does once the key is split, the value decoded and the peer ID
parsed. -/
theorem Validator_Validate_eq (d : Deps) (p : PeerDeps) (now : Time) (v : Validator)
    (key token value : Bytes) (pid : ID) (entry : Dms3NsEntry)
    (hsplit : p.SplitKey key = .ok (ascii "dms3ns", token))
    (hval : d.Unmarshal value = .ok entry)
    (hpid : p.IDFromString token = .ok pid) :
    Validator.Validate d p now v key value =
      match v.getPublicKey p pid entry with
      | .error err => some err
      | .ok pubk => Validate d now pubk entry := by
  unfold Validator.Validate
  simp only [hsplit, hval, hpid, ne_eq, not_true_eq_false, if_false]

/-- The errors that `Validate` returns are `ErrSignature`, `ErrUnrecognizedValidity`,
`ErrExpiredRecord` and the errors of the timestamp parser. -/
theorem Validate_errors (d : Deps) (now : Time) (pk : PubKey) (entry : Dms3NsEntry)
    (err : Error) (h : Validate d now pk entry = some err) :
    err = Error.ErrSignature ∨ err = Error.ErrUnrecognizedValidity ∨
      err = Error.ErrExpiredRecord ∨ ∃ b, d.ParseRFC3339 b = .error err := by
  rw [Validate_eq] at h
  split at h
  · unfold GetEOL at h
    split at h
    · rename_i e he
      split at he
      · cases he
        cases h
        exact Or.inr (Or.inl rfl)
      · cases h
        exact Or.inr (Or.inr (Or.inr ⟨_, he⟩))
    · split at h
      · cases h
        exact Or.inr (Or.inr (Or.inl rfl))
      · cases h
  · cases h
    exact Or.inl rfl

/-- C12: `ErrPublicKeyNotFound` exactly when all three key sources fail. For a key that splits
into the namespace `dms3ns` and a token that parses to the peer ID `pid`, and a value that
decodes to `entry` (the collaborators never returning this package's `ErrPublicKeyNotFound`
themselves), `Validator.Validate` returns `ErrPublicKeyNotFound` if and only if the entry has
no embedded key, `pid` yields no key, and the key book is `nil` or has no key for `pid`; and
when the key book has a key for `pid` in that situation, the result is that of `Validate`
with that key. -/
theorem not_found_iff (d : Deps) (p : PeerDeps) (now : Time) (v : Validator)
    (key token value : Bytes) (pid : ID) (entry : Dms3NsEntry)
    (hsplit : p.SplitKey key = .ok (ascii "dms3ns", token))
    (hpid : p.IDFromString token = .ok pid)
    (hval : d.Unmarshal value = .ok entry)
    (hforeign : ∀ err, p.IDExtractPublicKey pid = .error err → err ≠ Error.ErrPublicKeyNotFound)
    (hparse : ∀ b err, d.ParseRFC3339 b = .error err → err ≠ Error.ErrPublicKeyNotFound) :
    (Validator.Validate d p now v key value = some Error.ErrPublicKeyNotFound ↔
      entry.PubKey = none ∧ p.IDExtractPublicKey pid = .ok none ∧
        (v.KeyBook = none ∨ ∃ kb, v.KeyBook = some kb ∧ kb.PubKey pid = none)) ∧
    (∀ kb k, entry.PubKey = none → p.IDExtractPublicKey pid = .ok none →
      v.KeyBook = some kb → kb.PubKey pid = some k →
      Validator.Validate d p now v key value = Validate d now k entry) := by
  rw [Validator_Validate_eq d p now v key token value pid entry hsplit hval hpid]
  have hV : ∀ k, Validate d now k entry ≠ some Error.ErrPublicKeyNotFound := by
    intro k h
    rcases Validate_errors d now k entry _ h with h | h | h | ⟨b, h⟩
    · cases h
    · cases h
    · cases h
    · exact hparse b _ h rfl
  constructor
  · constructor
    · intro h
      unfold Validator.getPublicKey ExtractPublicKey at h
      rcases hk : entry.PubKey with _ | kb
      · rw [hk] at h
        simp only at h
        rcases hx : p.IDExtractPublicKey pid with err | ok
        · rw [hx] at h
          simp only [Option.some.injEq] at h
          exact absurd h (hforeign err hx)
        · rw [hx] at h
          cases ok with
          | some k => exact absurd h (hV k)
          | none =>
            refine ⟨rfl, rfl, ?_⟩
            simp only at h
            rcases hb : v.KeyBook with _ | book
            · exact Or.inl rfl
            · rw [hb] at h
              simp only at h
              rcases hq : book.PubKey pid with _ | k
              · exact Or.inr ⟨book, rfl, hq⟩
              · rw [hq] at h
                exact absurd h (hV k)
      · rw [hk] at h
        simp only at h
        rcases hu : p.UnmarshalPublicKey kb with err | pk
        · rw [hu] at h
          simp at h
        · rw [hu] at h
          simp only at h
          rcases hi : p.IDFromPublicKey pk with err | expPid
          · rw [hi] at h
            simp at h
          · rw [hi] at h
            simp only at h
            by_cases hne : pid ≠ expPid
            · rw [if_pos hne] at h
              simp at h
            · rw [if_neg hne] at h
              exact absurd h (hV pk)
    · rintro ⟨hk, hx, hb⟩
      unfold Validator.getPublicKey ExtractPublicKey
      rw [hk]
      simp only [hx]
      rcases hb with hb | ⟨book, hb, hq⟩
      · rw [hb]
      · rw [hb]
        simp only [hq]
  · intro book k hk hx hb hq
    unfold Validator.getPublicKey ExtractPublicKey
    rw [hk]
    simp only [hx, hb, hq]

/-- The concrete timestamp parser fails with one error value only. -/
theorem demoParse_error (b : Bytes) (err : Error) (h : demoDeps.ParseRFC3339 b = .error err) :
    err = Error.foreign "parsing time" := by
  simp only [demoDeps, demoParse] at h
  split at h
  · cases h
  · cases h
    rfl

/-- The peer ID of `longKey` yields no key, under the concrete collaborators. -/
theorem longID_no_key : demoPeerDeps.IDExtractPublicKey longID = .ok none := rfl

/-- The key `RecordKey longID`, the value `candOld` and the validator without key book satisfy
the hypotheses of `not_found_iff`; all three key sources fail. -/
theorem not_found_iff_witness :
    (demoPeerDeps.SplitKey (RecordKey longID) = .ok (ascii "dms3ns", longID) ∧
      demoPeerDeps.IDFromString longID = .ok longID ∧
      demoDeps.Unmarshal candOld = .ok oldEntry ∧
      (∀ err, demoPeerDeps.IDExtractPublicKey longID = .error err →
        err ≠ Error.ErrPublicKeyNotFound) ∧
      (∀ b err, demoDeps.ParseRFC3339 b = .error err → err ≠ Error.ErrPublicKeyNotFound) ∧
      oldEntry.PubKey = none ∧ demoPeerDeps.IDExtractPublicKey longID = .ok none ∧
      demoKeyBook.PubKey longID = some (toyPubKey longKey)) ∧
    Validator.Validate demoDeps demoPeerDeps 0 { KeyBook := none } (RecordKey longID) candOld
      = some Error.ErrPublicKeyNotFound ∧
    Validator.Validate demoDeps demoPeerDeps 0 { KeyBook := some demoKeyBook }
        (RecordKey longID) candOld
      = Validate demoDeps 0 (toyPubKey longKey) oldEntry :=
  have hf : ∀ err, demoPeerDeps.IDExtractPublicKey longID = .error err →
      err ≠ Error.ErrPublicKeyNotFound := fun err h => by
    rw [longID_no_key] at h
    cases h
  have hp : ∀ b err, demoDeps.ParseRFC3339 b = .error err →
      err ≠ Error.ErrPublicKeyNotFound := fun b err h => by
    rw [demoParse_error b err h]
    decide
  ⟨⟨rfl, rfl, rfl, hf, hp, rfl, rfl, rfl⟩,
    (not_found_iff demoDeps demoPeerDeps 0 { KeyBook := none } (RecordKey longID) longID
      candOld longID oldEntry rfl rfl rfl hf hp).1.2 ⟨rfl, rfl, Or.inl rfl⟩,
    (not_found_iff demoDeps demoPeerDeps 0 { KeyBook := some demoKeyBook } (RecordKey longID)
      longID candOld longID oldEntry rfl rfl rfl hf hp).2 demoKeyBook (toyPubKey longKey)
      rfl rfl rfl rfl⟩

/-- C13 (as stated, refuted): the key `/dms3ns/bad key` splits into the namespace `dms3ns`
and the token `bad key`, which is no peer ID; with the value `bad data`, which does not decode,
`Validator.Validate` returns `ErrBadRecord`, not `ErrKeyFormat`. -/
theorem bad_key_bad_data :
    demoPeerDeps.SplitKey (ascii "/dms3ns/bad key") = .ok (ascii "dms3ns", ascii "bad key") ∧
    demoPeerDeps.IDFromString (ascii "bad key") = .error (Error.foreign "multihash: invalid") ∧
    demoDeps.Unmarshal (ascii "bad data") = .error (Error.foreign "proto: cannot decode") ∧
    Validator.Validate demoDeps demoPeerDeps 0 { KeyBook := none } (ascii "/dms3ns/bad key")
      (ascii "bad data") = some Error.ErrBadRecord ∧
    Validator.Validate demoDeps demoPeerDeps 0 { KeyBook := none } (ascii "/dms3ns/bad key")
      (ascii "bad data") ≠ some Error.ErrKeyFormat :=
  ⟨rfl, rfl, rfl, by decide, by decide⟩

/-- C13 (amended): for a key that splits into the namespace `dms3ns` and a token that does not
parse into a peer ID, and for every validator, `Validator.Validate` fails with `ErrKeyFormat`
when the value decodes to an entry, and with `ErrBadRecord` when the value does not decode:
the value is decoded before the token is parsed. -/
theorem key_format_after_decoding (d : Deps) (p : PeerDeps) (now : Time) (v : Validator)
    (key token value : Bytes) (e : Error)
    (hsplit : p.SplitKey key = .ok (ascii "dms3ns", token))
    (htok : p.IDFromString token = .error e) :
    (∀ entry, d.Unmarshal value = .ok entry →
      Validator.Validate d p now v key value = some Error.ErrKeyFormat) ∧
    (∀ err, d.Unmarshal value = .error err →
      Validator.Validate d p now v key value = some Error.ErrBadRecord) := by
  constructor
  · intro entry hval
    unfold Validator.Validate
    simp only [hsplit, hval, htok, ne_eq, not_true_eq_false, if_false]
  · intro err hval
    unfold Validator.Validate
    simp only [hsplit, hval, ne_eq, not_true_eq_false, if_false]

/-- The key `/dms3ns/bad key` satisfies the hypotheses of `key_format_after_decoding`; the
value `candOld` decodes and the value `bad data` does not. -/
theorem key_format_after_decoding_witness :
    (demoPeerDeps.SplitKey (ascii "/dms3ns/bad key")
        = .ok (ascii "dms3ns", ascii "bad key") ∧
      demoPeerDeps.IDFromString (ascii "bad key")
        = .error (Error.foreign "multihash: invalid") ∧
      demoDeps.Unmarshal candOld = .ok oldEntry ∧
      demoDeps.Unmarshal (ascii "bad data") = .error (Error.foreign "proto: cannot decode")) ∧
    Validator.Validate demoDeps demoPeerDeps 0 { KeyBook := some demoKeyBook }
      (ascii "/dms3ns/bad key") candOld = some Error.ErrKeyFormat ∧
    Validator.Validate demoDeps demoPeerDeps 0 { KeyBook := some demoKeyBook }
      (ascii "/dms3ns/bad key") (ascii "bad data") = some Error.ErrBadRecord :=
  ⟨⟨rfl, rfl, rfl, rfl⟩,
    (key_format_after_decoding demoDeps demoPeerDeps 0 { KeyBook := some demoKeyBook }
      (ascii "/dms3ns/bad key") (ascii "bad key") candOld _ rfl rfl).1 oldEntry rfl,
    (key_format_after_decoding demoDeps demoPeerDeps 0 { KeyBook := some demoKeyBook }
      (ascii "/dms3ns/bad key") (ascii "bad key") (ascii "bad data") _ rfl rfl).2 _ rfl⟩

/-- C14: `ErrInvalidPath` on a bad namespace. When `SplitKey` fails on the key, or the
namespace it returns is not `dms3ns`, `Validator.Validate` returns `ErrInvalidPath` for every
value, every validator, every decoder and every clock: the path is checked first. -/
theorem invalid_path (d : Deps) (p : PeerDeps) (now : Time) (v : Validator)
    (key value : Bytes)
    (h : (∃ err, p.SplitKey key = .error err) ∨
      (∃ ns rest, p.SplitKey key = .ok (ns, rest) ∧ ns ≠ ascii "dms3ns")) :
    Validator.Validate d p now v key value = some Error.ErrInvalidPath := by
  unfold Validator.Validate
  rcases h with ⟨err, h⟩ | ⟨ns, rest, h, hns⟩
  · simp only [h]
  · simp only [h]
    rw [if_pos hns]

/-- The keys `//` followed by a peer ID, on which `SplitKey` fails, and `/wrong/` followed by
a peer ID, whose namespace is not `dms3ns`, satisfy the hypothesis of `invalid_path`. -/
theorem invalid_path_witness :
    ((∃ err, demoPeerDeps.SplitKey (ascii "//" ++ longID) = .error err) ∧
      (∃ ns rest, demoPeerDeps.SplitKey (ascii "/wrong/" ++ longID) = .ok (ns, rest) ∧
        ns ≠ ascii "dms3ns")) ∧
    Validator.Validate demoDeps demoPeerDeps 0 { KeyBook := some demoKeyBook }
      (ascii "//" ++ longID) candOld = some Error.ErrInvalidPath ∧
    Validator.Validate demoDeps demoPeerDeps 0 { KeyBook := some demoKeyBook }
      (ascii "/wrong/" ++ longID) candOld = some Error.ErrInvalidPath :=
  ⟨⟨⟨_, rfl⟩, ⟨_, _, rfl, by decide⟩⟩,
    invalid_path demoDeps demoPeerDeps 0 { KeyBook := some demoKeyBook }
      (ascii "//" ++ longID) candOld (Or.inl ⟨_, rfl⟩),
    invalid_path demoDeps demoPeerDeps 0 { KeyBook := some demoKeyBook }
      (ascii "/wrong/" ++ longID) candOld (Or.inr ⟨_, _, rfl, by decide⟩)⟩

/-! ## Embedding and extracting the public key -/

/-- C15: embedding is idempotent. A second call of `EmbedPublicKey` with the same key returns
the same error status and leaves the entry in the state the first call left it in; when the
peer ID of the key already yields a key, the call returns `nil` and does not touch the entry,
so that an unset `PubKey` stays unset; and in every case all fields other than `PubKey` keep
their values. -/
theorem EmbedPublicKey_idempotent (p : PeerDeps) (pk : PubKey) (e : Dms3NsEntry) :
    EmbedPublicKey p pk (EmbedPublicKey p pk e).2 = EmbedPublicKey p pk e ∧
    (∀ id x, p.IDFromPublicKey pk = .ok id → p.IDExtractPublicKey id = .ok (some x) →
      EmbedPublicKey p pk e = (none, e)) ∧
    ({ (EmbedPublicKey p pk e).2 with PubKey := e.PubKey } : Dms3NsEntry) = e := by
  refine ⟨?_, ?_, ?_⟩
  · unfold EmbedPublicKey
    rcases hid : p.IDFromPublicKey pk with err | id
    · simp only [hid]
    · simp only [hid]
      rcases hx : p.IDExtractPublicKey id with err | x
      · simp only [hx]
      · cases x with
        | some k => simp only [hx]
        | none =>
          simp only [hx]
          rcases hb : pk.Bytes with err | b
          · simp only [hb]
          · simp only [hb]
  · intro id x hid hx
    unfold EmbedPublicKey
    simp only [hid, hx]
  · unfold EmbedPublicKey
    rcases hid : p.IDFromPublicKey pk with err | id
    · simp only [hid]
    · simp only [hid]
      rcases hx : p.IDExtractPublicKey id with err | x
      · simp only [hx]
      · cases x with
        | some k => simp only [hx]
        | none =>
          simp only [hx]
          rcases hb : pk.Bytes with err | b
          · simp only [hb]
          · simp only [hb]

/-- The key `shortKey`, whose peer ID yields the key, satisfies the hypotheses of the second
part of `EmbedPublicKey_idempotent`; the key `longKey` is embedded, and embedded again without
change. -/
theorem EmbedPublicKey_idempotent_witness :
    (demoPeerDeps.IDFromPublicKey (toyPubKey shortKey) = .ok shortID ∧
      demoPeerDeps.IDExtractPublicKey shortID = .ok (some (toyPubKey shortKey))) ∧
    EmbedPublicKey demoPeerDeps (toyPubKey shortKey) oldEntry = (none, oldEntry) ∧
    EmbedPublicKey demoPeerDeps (toyPubKey longKey) oldEntry
      = (none, { oldEntry with PubKey := some [8, 0, 18, 8, 1, 2, 3, 4, 5, 6, 7, 8] }) ∧
    EmbedPublicKey demoPeerDeps (toyPubKey longKey)
        (EmbedPublicKey demoPeerDeps (toyPubKey longKey) oldEntry).2
      = EmbedPublicKey demoPeerDeps (toyPubKey longKey) oldEntry :=
  ⟨⟨rfl, rfl⟩,
    (EmbedPublicKey_idempotent demoPeerDeps (toyPubKey shortKey) oldEntry).2.1 shortID
      (toyPubKey shortKey) rfl rfl,
    rfl,
    (EmbedPublicKey_idempotent demoPeerDeps (toyPubKey longKey) oldEntry).1⟩

/-- C16: embedding, then extracting. Let `pid` be the peer ID of `pk` and `e` an entry without
embedded key, let unmarshalling undo `pk.Bytes()`, and let a key that a peer ID yields derive
that peer ID. If `EmbedPublicKey` succeeds and leaves the entry `e'`, then `ExtractPublicKey`
on `pid` and `e'` returns a public key, the peer ID of that key is `pid`, and the result is
not `ErrPublicKeyMismatch`, whether the key was embedded or is recovered from `pid`. -/
theorem embed_then_extract (p : PeerDeps) (pk : PubKey) (pid : ID) (e e' : Dms3NsEntry)
    (hpid : p.IDFromPublicKey pk = .ok pid)
    (hunset : e.PubKey = none)
    (hundo : ∀ b, pk.Bytes = .ok b → p.UnmarshalPublicKey b = .ok pk)
    (hyield : ∀ x, p.IDExtractPublicKey pid = .ok (some x) → p.IDFromPublicKey x = .ok pid)
    (hembed : EmbedPublicKey p pk e = (none, e')) :
    (∃ x, ExtractPublicKey p pid e' = .ok (some x) ∧ p.IDFromPublicKey x = .ok pid) ∧
    ExtractPublicKey p pid e' ≠ .error Error.ErrPublicKeyMismatch := by
  have key : ∃ x, ExtractPublicKey p pid e' = .ok (some x) ∧ p.IDFromPublicKey x = .ok pid := by
    unfold EmbedPublicKey at hembed
    simp only [hpid] at hembed
    rcases hx : p.IDExtractPublicKey pid with err | x
    · simp [hx] at hembed
    · cases x with
      | some k =>
        simp only [hx, Prod.mk.injEq, true_and] at hembed
        subst hembed
        refine ⟨k, ?_, hyield k hx⟩
        unfold ExtractPublicKey
        rw [hunset]
        exact hx
      | none =>
        simp only [hx] at hembed
        rcases hb : pk.Bytes with err | b
        · simp [hb] at hembed
        · simp only [hb, Prod.mk.injEq, true_and] at hembed
          subst hembed
          refine ⟨pk, ?_, hpid⟩
          unfold ExtractPublicKey
          simp only [hundo b hb, hpid, ne_eq, not_true_eq_false, if_false]
  refine ⟨key, ?_⟩
  obtain ⟨x, hx, -⟩ := key
  rw [hx]
  intro h
  cases h

/-- The concrete unmarshalling of public keys undoes the encoding of the toy keys. -/
theorem demo_undo (k b : Bytes) (h : (toyPubKey k).Bytes = .ok b) :
    demoPeerDeps.UnmarshalPublicKey b = .ok (toyPubKey k) := by
  simp only [toyPubKey, Except.ok.injEq] at h
  subst h
  simp [demoPeerDeps, demoUnmarshalPublicKey, toyPubKey]

/-- The key `longKey`, which gets embedded, and the key `shortKey`, which its peer ID yields,
satisfy the hypotheses of `embed_then_extract` with the entry `oldEntry`. -/
theorem embed_then_extract_witness :
    ((demoPeerDeps.IDFromPublicKey (toyPubKey longKey) = .ok longID ∧ oldEntry.PubKey = none ∧
        (∀ b, (toyPubKey longKey).Bytes = .ok b →
          demoPeerDeps.UnmarshalPublicKey b = .ok (toyPubKey longKey)) ∧
        (∀ x, demoPeerDeps.IDExtractPublicKey longID = .ok (some x) →
          demoPeerDeps.IDFromPublicKey x = .ok longID) ∧
        EmbedPublicKey demoPeerDeps (toyPubKey longKey) oldEntry
          = (none, { oldEntry with PubKey := some [8, 0, 18, 8, 1, 2, 3, 4, 5, 6, 7, 8] })) ∧
      (∃ x, ExtractPublicKey demoPeerDeps longID
          { oldEntry with PubKey := some [8, 0, 18, 8, 1, 2, 3, 4, 5, 6, 7, 8] }
            = .ok (some x) ∧ demoPeerDeps.IDFromPublicKey x = .ok longID) ∧
      ExtractPublicKey demoPeerDeps longID
          { oldEntry with PubKey := some [8, 0, 18, 8, 1, 2, 3, 4, 5, 6, 7, 8] }
        ≠ .error Error.ErrPublicKeyMismatch) ∧
    ((demoPeerDeps.IDFromPublicKey (toyPubKey shortKey) = .ok shortID ∧
        (∀ b, (toyPubKey shortKey).Bytes = .ok b →
          demoPeerDeps.UnmarshalPublicKey b = .ok (toyPubKey shortKey)) ∧
        (∀ x, demoPeerDeps.IDExtractPublicKey shortID = .ok (some x) →
          demoPeerDeps.IDFromPublicKey x = .ok shortID) ∧
        EmbedPublicKey demoPeerDeps (toyPubKey shortKey) oldEntry = (none, oldEntry)) ∧
      (∃ x, ExtractPublicKey demoPeerDeps shortID oldEntry = .ok (some x) ∧
        demoPeerDeps.IDFromPublicKey x = .ok shortID) ∧
      ExtractPublicKey demoPeerDeps shortID oldEntry ≠ .error Error.ErrPublicKeyMismatch) :=
  have hl : ∀ x, demoPeerDeps.IDExtractPublicKey longID = .ok (some x) →
      demoPeerDeps.IDFromPublicKey x = .ok longID := fun x h => by
    rw [longID_no_key] at h
    cases h
  have hs : ∀ x, demoPeerDeps.IDExtractPublicKey shortID = .ok (some x) →
      demoPeerDeps.IDFromPublicKey x = .ok shortID := fun x h => by
    have h0 : demoPeerDeps.IDExtractPublicKey shortID = .ok (some (toyPubKey shortKey)) := rfl
    rw [h0] at h
    cases h
    rfl
  ⟨⟨⟨rfl, rfl, demo_undo longKey, hl, rfl⟩,
      embed_then_extract demoPeerDeps (toyPubKey longKey) longID oldEntry
        { oldEntry with PubKey := some [8, 0, 18, 8, 1, 2, 3, 4, 5, 6, 7, 8] }
        rfl rfl (demo_undo longKey) hl rfl⟩,
    ⟨⟨rfl, demo_undo shortKey, hs, rfl⟩,
      embed_then_extract demoPeerDeps (toyPubKey shortKey) shortID oldEntry oldEntry
        rfl rfl (demo_undo shortKey) hs rfl⟩⟩

/-! ## Failure conditions -/

theorem unmarshalAll_fails (d : Deps) : ∀ (vals : List Bytes) (acc : List Dms3NsEntry)
    (v : Bytes) (err : Error), v ∈ vals → d.Unmarshal v = .error err →
      ∃ err', unmarshalAll d acc vals = .error err'
  | [], _, _, _, hv, _ => by simp at hv
  | w :: ws, acc, v, err, hv, herr => by
    unfold unmarshalAll
    rcases hw : d.Unmarshal w with e | rec
    · exact ⟨e, rfl⟩
    · simp only
      rcases List.mem_cons.mp hv with h | h
      · rw [h, hw] at herr
        cases herr
      · exact unmarshalAll_fails d ws _ v err h herr

/-- C17: the failure conditions of `Select`. On the empty list it returns `-1` and the error
of `selectRecord`; when some candidate, at any position, does not unmarshal, it returns `-1`
and an error; and on every success the index is at least `0` and below the number of
candidates. -/
theorem Select_failures (d : Deps) (key : String) :
    Select d key [] = (-1, some Error.noUsableRecords) ∧
    (∀ vals v err, v ∈ vals → d.Unmarshal v = .error err →
      ∃ err', Select d key vals = (-1, some err')) ∧
    (∀ vals r, Select d key vals = (r, none) → 0 ≤ r ∧ r < (vals.length : Int)) := by
  refine ⟨rfl, ?_, ?_⟩
  · intro vals v err hv herr
    obtain ⟨err', h⟩ := unmarshalAll_fails d vals [] v err hv herr
    exact ⟨err', by unfold Select; rw [h]⟩
  · intro vals r h
    obtain ⟨k, rfl, hk, -, -⟩ := Select_ok d key vals r h
    exact ⟨Int.natCast_nonneg k, by exact_mod_cast hk⟩

/-- The list `candNewer`, `candNew`, `bad data`, whose last candidate does not unmarshal and
could not win, satisfies the hypotheses of the second part of `Select_failures`; the list
without it satisfies those of the third part. -/
theorem Select_failures_witness :
    (ascii "bad data" ∈ [candNewer, candNew, ascii "bad data"] ∧
      demoDeps.Unmarshal (ascii "bad data") = .error (Error.foreign "proto: cannot decode") ∧
      Select demoDeps "" [candNewer, candNew] = (0, none)) ∧
    (∃ err', Select demoDeps "" [candNewer, candNew, ascii "bad data"] = (-1, some err')) ∧
    ((0 : Int) ≤ 0 ∧ (0 : Int) < ([candNewer, candNew].length : Int)) :=
  ⟨⟨by decide, rfl, by decide⟩,
    (Select_failures demoDeps "").2.1 [candNewer, candNew, ascii "bad data"]
      (ascii "bad data") _ (by decide) rfl,
    (Select_failures demoDeps "").2.2 [candNewer, candNew] 0 (by decide)⟩

/-- C18: an unrecognized validity type. For an entry whose validity type is not `EOL`,
`GetEOL` returns `ErrUnrecognizedValidity` whatever the validity holds and whatever the
timestamp parser would say, and if the signature of the entry verifies under `pk`, `Validate`
returns `ErrUnrecognizedValidity` at every time. -/
theorem unrecognized_validity (d : Deps) (pk : PubKey) (entry : Dms3NsEntry)
    (htyp : entry.GetValidityType ≠ Dms3NsEntry_EOL) :
    (∀ x parse, GetEOL { d with ParseRFC3339 := parse } { entry with Validity := x }
      = .error Error.ErrUnrecognizedValidity) ∧
    GetEOL d entry = .error Error.ErrUnrecognizedValidity ∧
    (pk.Verify (dms3nsEntryDataForSig entry) entry.GetSignature = (true, none) →
      ∀ now, Validate d now pk entry = some Error.ErrUnrecognizedValidity) := by
  have h1 : GetEOL d entry = .error Error.ErrUnrecognizedValidity := by
    unfold GetEOL
    rw [if_pos htyp]
  refine ⟨?_, h1, ?_⟩
  · intro x parse
    unfold GetEOL
    rw [if_pos (by simpa [Dms3NsEntry.GetValidityType] using htyp)]
  · intro hsig now
    rw [Validate_eq]
    simp only [Dms3NsEntry.GetSignature] at hsig
    rw [if_pos hsig, h1]

theorem validityTypeName_one : validityTypeName 1 = [49] := by
  simp [validityTypeName, Dms3NsEntry_EOL, decimal]

theorem futureEntry_verifies :
    (toyPubKey [1, 2, 3]).Verify (dms3nsEntryDataForSig futureEntry) futureEntry.GetSignature
      = (true, none) := by
  have h : dms3nsEntryDataForSig futureEntry = ascii "/dms3fs/x2020-09-13T12:26:40Z1" := by
    unfold dms3nsEntryDataForSig
    have : futureEntry.GetValidityType = 1 := rfl
    rw [this, validityTypeName_one]
    rfl
  rw [h]
  decide

/-- The entry `futureEntry`, of validity type `1` and with a signature that verifies,
satisfies the hypotheses of `unrecognized_validity`. -/
theorem unrecognized_validity_witness :
    (futureEntry.GetValidityType ≠ Dms3NsEntry_EOL ∧
      (toyPubKey [1, 2, 3]).Verify (dms3nsEntryDataForSig futureEntry)
        futureEntry.GetSignature = (true, none)) ∧
    GetEOL demoDeps futureEntry = .error Error.ErrUnrecognizedValidity ∧
    Validate demoDeps 0 (toyPubKey [1, 2, 3]) futureEntry
      = some Error.ErrUnrecognizedValidity ∧
    Validate demoDeps (exampleEOL + 1) (toyPubKey [1, 2, 3]) futureEntry
      = some Error.ErrUnrecognizedValidity :=
  have h := unrecognized_validity demoDeps (toyPubKey [1, 2, 3]) futureEntry (by decide)
  ⟨⟨by decide, futureEntry_verifies⟩, h.2.1, h.2.2 futureEntry_verifies 0,
    h.2.2 futureEntry_verifies (exampleEOL + 1)⟩

/-- C19 (as stated, refuted): the entry `soonEntry` has a signature that verifies, the
validity type `EOL` and a validity that does not parse; `Validate` returns the error of the
timestamp parser, which is not `ErrBadRecord`. -/
theorem unparseable_not_ErrBadRecord :
    (toyPubKey [1, 2, 3]).Verify (dms3nsEntryDataForSig soonEntry) soonEntry.GetSignature
      = (true, none) ∧
    soonEntry.GetValidityType = Dms3NsEntry_EOL ∧
    demoDeps.ParseRFC3339 soonEntry.GetValidity = .error (Error.foreign "parsing time") ∧
    Validate demoDeps 0 (toyPubKey [1, 2, 3]) soonEntry
      = some (Error.foreign "parsing time") ∧
    Validate demoDeps 0 (toyPubKey [1, 2, 3]) soonEntry ≠ some Error.ErrBadRecord :=
  ⟨by decide, rfl, rfl, by decide, by decide⟩

/-- C19 (amended): for an entry whose signature verifies under `pk`, whose validity type is
`EOL` and whose validity does not parse, `Validate` fails, at every time, with the very error
that the timestamp parser returned. -/
theorem unparseable_error_passed_on (d : Deps) (now : Time) (pk : PubKey)
    (entry : Dms3NsEntry) (err : Error)
    (hsig : pk.Verify (dms3nsEntryDataForSig entry) entry.GetSignature = (true, none))
    (htyp : entry.GetValidityType = Dms3NsEntry_EOL)
    (hparse : d.ParseRFC3339 entry.GetValidity = .error err) :
    Validate d now pk entry = some err := by
  rw [Validate_eq]
  simp only [Dms3NsEntry.GetSignature] at hsig
  rw [if_pos hsig]
  unfold GetEOL
  simp only [htyp, ne_eq, not_true_eq_false, if_false, hparse]

/-- The entry `soonEntry` satisfies the hypotheses of `unparseable_error_passed_on`. -/
theorem unparseable_error_passed_on_witness :
    ((toyPubKey [1, 2, 3]).Verify (dms3nsEntryDataForSig soonEntry) soonEntry.GetSignature
        = (true, none) ∧
      soonEntry.GetValidityType = Dms3NsEntry_EOL ∧
      demoDeps.ParseRFC3339 soonEntry.GetValidity = .error (Error.foreign "parsing time")) ∧
    Validate demoDeps exampleEOL (toyPubKey [1, 2, 3]) soonEntry
      = some (Error.foreign "parsing time") :=
  ⟨⟨by decide, rfl, rfl⟩,
    unparseable_error_passed_on demoDeps exampleEOL (toyPubKey [1, 2, 3]) soonEntry _
      (by decide) rfl rfl⟩

/-! ## Antisymmetry of the comparison -/

/-- C20: `Compare` is antisymmetric. `Compare a b` returns an error if and only if
`Compare b a` does; when both succeed, the result of one is the negation of the result of the
other; and `Compare a a` is `(0, nil)` for every entry whose validity parses. -/
theorem Compare_antisymm (d : Deps) (a b : Dms3NsEntry) :
    ((Compare d a b).2 ≠ none ↔ (Compare d b a).2 ≠ none) ∧
    ((Compare d a b).2 = none → (Compare d b a).2 = none →
      (Compare d a b).1 = - (Compare d b a).1) ∧
    (∀ t, d.ParseRFC3339 a.GetValidity = .ok t → Compare d a a = (0, none)) := by
  refine ⟨?_, ?_, ?_⟩
  · unfold Compare
    simp only [gt_iff_lt]
    by_cases h1 : b.GetSequence < a.GetSequence
    · have h2 : ¬ a.GetSequence < b.GetSequence := by omega
      simp [h1, h2]
    · by_cases h2 : a.GetSequence < b.GetSequence
      · simp [h1, h2]
      · simp only [h1, h2, if_false]
        rcases ha : d.ParseRFC3339 a.GetValidity with ea | ta <;>
          rcases hb : d.ParseRFC3339 b.GetValidity with eb | tb
        · simp
        · simp
        · simp
        · simp only
          by_cases c1 : After ta tb = true <;> by_cases c2 : After tb ta = true <;>
            simp [c1, c2]
  · unfold Compare
    simp only [gt_iff_lt]
    by_cases h1 : b.GetSequence < a.GetSequence
    · have h2 : ¬ a.GetSequence < b.GetSequence := by omega
      simp [h1, h2]
    · by_cases h2 : a.GetSequence < b.GetSequence
      · simp [h1, h2]
      · simp only [h1, h2, if_false]
        rcases ha : d.ParseRFC3339 a.GetValidity with ea | ta <;>
          rcases hb : d.ParseRFC3339 b.GetValidity with eb | tb
        · simp
        · simp
        · simp
        · simp only [After, decide_eq_true_eq]
          by_cases c1 : tb < ta
          · have c2 : ¬ ta < tb := not_lt_of_gt c1
            simp [c1, c2]
          · by_cases c2 : ta < tb
            · simp [c1, c2]
            · simp [c1, c2]
  · intro t ht
    unfold Compare
    simp [ht, After]

/-- The entries `exampleEntry`, of sequence `1`, and `soonEntry` with sequence `2` compare to
`-1` and `1`; the entry `exampleEntry`, whose validity parses, compares to itself as `0`. -/
theorem Compare_antisymm_witness :
    (demoDeps.ParseRFC3339 exampleEntry.GetValidity = .ok exampleEOL ∧
      (Compare demoDeps exampleEntry { soonEntry with Sequence := 2 }).2 = none ∧
      (Compare demoDeps { soonEntry with Sequence := 2 } exampleEntry).2 = none) ∧
    (Compare demoDeps exampleEntry { soonEntry with Sequence := 2 }).1
      = - (Compare demoDeps { soonEntry with Sequence := 2 } exampleEntry).1 ∧
    Compare demoDeps exampleEntry exampleEntry = (0, none) :=
  ⟨⟨rfl, by decide, by decide⟩,
    (Compare_antisymm demoDeps exampleEntry { soonEntry with Sequence := 2 }).2.1
      (by decide) (by decide),
    (Compare_antisymm demoDeps exampleEntry exampleEntry).2.2 exampleEOL rfl⟩

end Dms3ns
